import Mathlib

/-!
Verification of the prompt-templating repository (`template_loader.py`,
`prompt_optimizer.py`).

Python strings are modelled as `List Char`; Python dicts (insertion ordered,
string keys) as association lists `List (Str × Str)`.  Each definition below
is a direct transcription of the corresponding Python function; curly braces
inside string literals are written with the escapes `\x7b` and `\x7d`.
-/

/-- Python strings, modelled as lists of characters. -/
abbrev Str := List Char

/-- The opening curly brace character `U+007B`. -/
def obrace : Char := '\x7b'

/-- The closing curly brace character `U+007D`. -/
def cbrace : Char := '\x7d'

/-- A string containing neither curly brace character. -/
def braceFree (s : Str) : Prop := obrace ∉ s ∧ cbrace ∉ s

instance (s : Str) : Decidable (braceFree s) := by
  unfold braceFree; infer_instance

/-- `startsWith s p = true` iff `p` is a (character-for-character) prefix of
`s`.  Used to model occurrence matching of Python `str.replace` and `in`. -/
def startsWith : Str → Str → Bool
  | _, [] => true
  | [], _ :: _ => false
  | c :: s, d :: p => c == d && startsWith s p

/-- Substring occurrence test, modelling Python's `sub in s` on strings:
some contiguous run of `s` equals `sub`. -/
def containsSub : Str → Str → Bool
  | [], sub => sub.isEmpty
  | c :: t, sub => startsWith (c :: t) sub || containsSub t sub

/-- One match attempt of the regex `\x7b([^\x7d]+)\x7d` immediately after an
opening brace: the group is the maximal nonempty run of non-`\x7d`
characters, which must be followed by `\x7d`.  Returns the captured group
and the remainder of the input after the closing brace. -/
def takeName (s : Str) : Option (Str × Str) :=
  match s.takeWhile (fun c => c ≠ cbrace), s.dropWhile (fun c => c ≠ cbrace) with
  | [], _ => none
  | _, [] => none
  | name, _ :: rest => some (name, rest)

/-- A segment of a template string, as carved up by the left-to-right
non-overlapping scan of `re.findall(r'\x7b([^\x7d]+)\x7d', texto)`:
either a character that is not part of any match (`lit`) or the captured
group of one match (`hole`). -/
inductive Seg where
  | lit (c : Char)
  | hole (name : Str)
deriving DecidableEq

/-- Fuelled left-to-right regex scan; `fuel ≥ length of the input` makes the
fuel irrelevant (`parseSegsF_congr`). -/
def parseSegsF : Nat → Str → List Seg
  | _, [] => []
  | 0, s => s.map .lit
  | fuel + 1, c :: rest =>
    if c = obrace then
      match takeName rest with
      | some (n, r) => .hole n :: parseSegsF fuel r
      | none => .lit c :: parseSegsF fuel rest
    else .lit c :: parseSegsF fuel rest

/-- The left-to-right non-overlapping scan of a string for the regex
`\x7b([^\x7d]+)\x7d`: exactly the matches found by Python's `re.findall`,
with unmatched characters kept as literal segments. -/
def parseSegs (s : Str) : List Seg := parseSegsF s.length s

/-- Concatenate segments back into a string (`hole n` renders as the text
`\x7bn\x7d`). -/
def render : List Seg → Str
  | [] => []
  | .lit c :: s => c :: render s
  | .hole n :: s => obrace :: (n ++ cbrace :: render s)

/-- The captured groups of a segment list, in order. -/
def holesOf : List Seg → List Str
  | [] => []
  | .lit _ :: s => holesOf s
  | .hole n :: s => n :: holesOf s

/-- `TemplateLoader._extrair_placeholders`: the list returned by
`re.findall(r'\x7b([^\x7d]+)\x7d', texto)` — the captured groups of the
left-to-right non-overlapping scan, in order, with repetitions kept. -/
def extrair_placeholders (texto : Str) : List Str := holesOf (parseSegs texto)

/-- Fuelled version of Python `str.replace`: replaces every non-overlapping
occurrence of `old` by `new`, scanning left to right.  `fuel ≥ length of the
input` makes the fuel irrelevant (`replaceAllF_congr`). -/
def replaceAllF (old new : Str) : Nat → Str → Str
  | _, [] => []
  | 0, s => s
  | fuel + 1, c :: rest =>
    if startsWith (c :: rest) old ∧ old ≠ [] then
      new ++ replaceAllF old new fuel ((c :: rest).drop old.length)
    else
      c :: replaceAllF old new fuel rest

/-- Python `s.replace(old, new)` (for nonempty `old`, the only way it is
used in the repository). -/
def replaceAll (old new s : Str) : Str := replaceAllF old new s.length s

/-- First value bound to a key in an association list: Python dict lookup. -/
def lookupStr : List (Str × Str) → Str → Option Str
  | [], _ => none
  | (k, v) :: rest, key => if k = key then some v else lookupStr rest key

/-- Python `key in dict`. -/
def hasKey (valores : List (Str × Str)) (key : Str) : Bool :=
  (lookupStr valores key).isSome

/-- Python `", ".join(xs)`. -/
def joinComma : List Str → Str
  | [] => []
  | [x] => x
  | x :: y :: ys => x ++ (", ").toList ++ joinComma (y :: ys)

/-! ## `template_loader.py` -/

/-- One entry of the `templates` array of the JSON catalog: a dict with the
keys `nome`, `categoria` and `template`.  The `template` field is optional so
that a dict lacking the `'template'` key can be represented (the other two
are accessed only on well-formed catalog entries). -/
structure TemplateDict where
  nome : Str := []
  categoria : Str := []
  template : Option Str := none
deriving DecidableEq

/-- The one loop of `TemplateLoader.preencher_template` that performs the
substitution: for each `(chave, valor)` of `valores.items()` in insertion
order, if the text `\x7bchave\x7d` occurs in the current string, every
occurrence is replaced by `valor` (Python `str.replace`). -/
def fillLoop : List (Str × Str) → Str → Str
  | [], s => s
  | (chave, valor) :: rest, s =>
    let placeholder := obrace :: (chave ++ [cbrace])
    fillLoop rest (if containsSub s placeholder then replaceAll placeholder valor s else s)

/-- `TemplateLoader.preencher_template`.  The first argument models the
`template` parameter: `none` for `None` / a falsy dict, `some t` for a dict
(whose `'template'` key may be absent, `t.template = none`). -/
def preencher_template (template : Option TemplateDict) (valores : List (Str × Str)) : Str :=
  match template with
  | none => ("Template inválido.").toList
  | some t =>
    match t.template with
    | none => ("Template inválido.").toList
    | some prompt_template =>
      let placeholders := extrair_placeholders prompt_template
      let valores_faltantes := placeholders.filter (fun p => !(hasKey valores p))
      if valores_faltantes ≠ [] then
        ("Valores faltantes: ").toList ++ joinComma valores_faltantes
      else
        fillLoop valores prompt_template

/-! ## Python `str.lower`: the full default-case lowercase mapping
The tables below are the complete set of code points on which Python's
`str.lower` differs from the identity (Unicode default full lowercasing,
including the one multi-character mapping `U+0130`), written as ranges of
constant offset; `pyLowerTabK` covers one ascending block of code points
and yields `none` outside its rules. -/

/-- Lowercase mapping rules for code points `65`–`428`. -/
def pyLowerTab0 (n : Nat) : Option (List Nat) :=
  if 65 ≤ n ∧ n ≤ 90 then some [n + 32]
  else if 192 ≤ n ∧ n ≤ 214 then some [n + 32]
  else if 216 ≤ n ∧ n ≤ 222 then some [n + 32]
  else if 256 ≤ n ∧ n ≤ 302 ∧ n % 2 = 0 then some [n + 1]
  else if n = 304 then some [105, 775]
  else if 306 ≤ n ∧ n ≤ 310 ∧ n % 2 = 0 then some [n + 1]
  else if 313 ≤ n ∧ n ≤ 327 ∧ n % 2 = 1 then some [n + 1]
  else if 330 ≤ n ∧ n ≤ 374 ∧ n % 2 = 0 then some [n + 1]
  else if n = 376 then some [255]
  else if 377 ≤ n ∧ n ≤ 381 ∧ n % 2 = 1 then some [n + 1]
  else if n = 385 then some [595]
  else if 386 ≤ n ∧ n ≤ 388 ∧ n % 2 = 0 then some [n + 1]
  else if n = 390 then some [596]
  else if n = 391 then some [392]
  else if 393 ≤ n ∧ n ≤ 394 then some [n + 205]
  else if n = 395 then some [396]
  else if n = 398 then some [477]
  else if n = 399 then some [601]
  else if n = 400 then some [603]
  else if n = 401 then some [402]
  else if n = 403 then some [608]
  else if n = 404 then some [611]
  else if n = 406 then some [617]
  else if n = 407 then some [616]
  else if n = 408 then some [409]
  else if n = 412 then some [623]
  else if n = 413 then some [626]
  else if n = 415 then some [629]
  else if 416 ≤ n ∧ n ≤ 420 ∧ n % 2 = 0 then some [n + 1]
  else if n = 422 then some [640]
  else if n = 423 then some [424]
  else if n = 425 then some [643]
  else if n = 428 then some [429]
  else none

/-- Lowercase mapping rules for code points `430`–`895`. -/
def pyLowerTab1 (n : Nat) : Option (List Nat) :=
  if n = 430 then some [648]
  else if n = 431 then some [432]
  else if 433 ≤ n ∧ n ≤ 434 then some [n + 217]
  else if 435 ≤ n ∧ n ≤ 437 ∧ n % 2 = 1 then some [n + 1]
  else if n = 439 then some [658]
  else if n = 440 then some [441]
  else if n = 444 then some [445]
  else if n = 452 then some [454]
  else if n = 453 then some [454]
  else if n = 455 then some [457]
  else if n = 456 then some [457]
  else if n = 458 then some [460]
  else if 459 ≤ n ∧ n ≤ 475 ∧ n % 2 = 1 then some [n + 1]
  else if 478 ≤ n ∧ n ≤ 494 ∧ n % 2 = 0 then some [n + 1]
  else if n = 497 then some [499]
  else if 498 ≤ n ∧ n ≤ 500 ∧ n % 2 = 0 then some [n + 1]
  else if n = 502 then some [405]
  else if n = 503 then some [447]
  else if 504 ≤ n ∧ n ≤ 542 ∧ n % 2 = 0 then some [n + 1]
  else if n = 544 then some [414]
  else if 546 ≤ n ∧ n ≤ 562 ∧ n % 2 = 0 then some [n + 1]
  else if n = 570 then some [11365]
  else if n = 571 then some [572]
  else if n = 573 then some [410]
  else if n = 574 then some [11366]
  else if n = 577 then some [578]
  else if n = 579 then some [384]
  else if n = 580 then some [649]
  else if n = 581 then some [652]
  else if 582 ≤ n ∧ n ≤ 590 ∧ n % 2 = 0 then some [n + 1]
  else if 880 ≤ n ∧ n ≤ 882 ∧ n % 2 = 0 then some [n + 1]
  else if n = 886 then some [887]
  else if n = 895 then some [1011]
  else none

/-- Lowercase mapping rules for code points `902`–`7965`. -/
def pyLowerTab2 (n : Nat) : Option (List Nat) :=
  if n = 902 then some [940]
  else if 904 ≤ n ∧ n ≤ 906 then some [n + 37]
  else if n = 908 then some [972]
  else if 910 ≤ n ∧ n ≤ 911 then some [n + 63]
  else if 913 ≤ n ∧ n ≤ 929 then some [n + 32]
  else if 931 ≤ n ∧ n ≤ 939 then some [n + 32]
  else if n = 975 then some [983]
  else if 984 ≤ n ∧ n ≤ 1006 ∧ n % 2 = 0 then some [n + 1]
  else if n = 1012 then some [952]
  else if n = 1015 then some [1016]
  else if n = 1017 then some [1010]
  else if n = 1018 then some [1019]
  else if 1021 ≤ n ∧ n ≤ 1023 then some [n - 130]
  else if 1024 ≤ n ∧ n ≤ 1039 then some [n + 80]
  else if 1040 ≤ n ∧ n ≤ 1071 then some [n + 32]
  else if 1120 ≤ n ∧ n ≤ 1152 ∧ n % 2 = 0 then some [n + 1]
  else if 1162 ≤ n ∧ n ≤ 1214 ∧ n % 2 = 0 then some [n + 1]
  else if n = 1216 then some [1231]
  else if 1217 ≤ n ∧ n ≤ 1229 ∧ n % 2 = 1 then some [n + 1]
  else if 1232 ≤ n ∧ n ≤ 1326 ∧ n % 2 = 0 then some [n + 1]
  else if 1329 ≤ n ∧ n ≤ 1366 then some [n + 48]
  else if 4256 ≤ n ∧ n ≤ 4293 then some [n + 7264]
  else if n = 4295 then some [11559]
  else if n = 4301 then some [11565]
  else if 5024 ≤ n ∧ n ≤ 5103 then some [n + 38864]
  else if 5104 ≤ n ∧ n ≤ 5109 then some [n + 8]
  else if 7312 ≤ n ∧ n ≤ 7354 then some [n - 3008]
  else if 7357 ≤ n ∧ n ≤ 7359 then some [n - 3008]
  else if 7680 ≤ n ∧ n ≤ 7828 ∧ n % 2 = 0 then some [n + 1]
  else if n = 7838 then some [223]
  else if 7840 ≤ n ∧ n ≤ 7934 ∧ n % 2 = 0 then some [n + 1]
  else if 7944 ≤ n ∧ n ≤ 7951 then some [n - 8]
  else if 7960 ≤ n ∧ n ≤ 7965 then some [n - 8]
  else none

/-- Lowercase mapping rules for code points `7976`–`11364`. -/
def pyLowerTab3 (n : Nat) : Option (List Nat) :=
  if 7976 ≤ n ∧ n ≤ 7983 then some [n - 8]
  else if 7992 ≤ n ∧ n ≤ 7999 then some [n - 8]
  else if 8008 ≤ n ∧ n ≤ 8013 then some [n - 8]
  else if 8025 ≤ n ∧ n ≤ 8031 ∧ n % 2 = 1 then some [n - 8]
  else if 8040 ≤ n ∧ n ≤ 8047 then some [n - 8]
  else if 8072 ≤ n ∧ n ≤ 8079 then some [n - 8]
  else if 8088 ≤ n ∧ n ≤ 8095 then some [n - 8]
  else if 8104 ≤ n ∧ n ≤ 8111 then some [n - 8]
  else if 8120 ≤ n ∧ n ≤ 8121 then some [n - 8]
  else if 8122 ≤ n ∧ n ≤ 8123 then some [n - 74]
  else if n = 8124 then some [8115]
  else if 8136 ≤ n ∧ n ≤ 8139 then some [n - 86]
  else if n = 8140 then some [8131]
  else if 8152 ≤ n ∧ n ≤ 8153 then some [n - 8]
  else if 8154 ≤ n ∧ n ≤ 8155 then some [n - 100]
  else if 8168 ≤ n ∧ n ≤ 8169 then some [n - 8]
  else if 8170 ≤ n ∧ n ≤ 8171 then some [n - 112]
  else if n = 8172 then some [8165]
  else if 8184 ≤ n ∧ n ≤ 8185 then some [n - 128]
  else if 8186 ≤ n ∧ n ≤ 8187 then some [n - 126]
  else if n = 8188 then some [8179]
  else if n = 8486 then some [969]
  else if n = 8490 then some [107]
  else if n = 8491 then some [229]
  else if n = 8498 then some [8526]
  else if 8544 ≤ n ∧ n ≤ 8559 then some [n + 16]
  else if n = 8579 then some [8580]
  else if 9398 ≤ n ∧ n ≤ 9423 then some [n + 26]
  else if 11264 ≤ n ∧ n ≤ 11311 then some [n + 48]
  else if n = 11360 then some [11361]
  else if n = 11362 then some [619]
  else if n = 11363 then some [7549]
  else if n = 11364 then some [637]
  else none

/-- Lowercase mapping rules for code points `11367`–`42948`. -/
def pyLowerTab4 (n : Nat) : Option (List Nat) :=
  if 11367 ≤ n ∧ n ≤ 11371 ∧ n % 2 = 1 then some [n + 1]
  else if n = 11373 then some [593]
  else if n = 11374 then some [625]
  else if n = 11375 then some [592]
  else if n = 11376 then some [594]
  else if n = 11378 then some [11379]
  else if n = 11381 then some [11382]
  else if 11390 ≤ n ∧ n ≤ 11391 then some [n - 10815]
  else if 11392 ≤ n ∧ n ≤ 11490 ∧ n % 2 = 0 then some [n + 1]
  else if 11499 ≤ n ∧ n ≤ 11501 ∧ n % 2 = 1 then some [n + 1]
  else if n = 11506 then some [11507]
  else if 42560 ≤ n ∧ n ≤ 42604 ∧ n % 2 = 0 then some [n + 1]
  else if 42624 ≤ n ∧ n ≤ 42650 ∧ n % 2 = 0 then some [n + 1]
  else if 42786 ≤ n ∧ n ≤ 42798 ∧ n % 2 = 0 then some [n + 1]
  else if 42802 ≤ n ∧ n ≤ 42862 ∧ n % 2 = 0 then some [n + 1]
  else if 42873 ≤ n ∧ n ≤ 42875 ∧ n % 2 = 1 then some [n + 1]
  else if n = 42877 then some [7545]
  else if 42878 ≤ n ∧ n ≤ 42886 ∧ n % 2 = 0 then some [n + 1]
  else if n = 42891 then some [42892]
  else if n = 42893 then some [613]
  else if 42896 ≤ n ∧ n ≤ 42898 ∧ n % 2 = 0 then some [n + 1]
  else if 42902 ≤ n ∧ n ≤ 42920 ∧ n % 2 = 0 then some [n + 1]
  else if n = 42922 then some [614]
  else if n = 42923 then some [604]
  else if n = 42924 then some [609]
  else if n = 42925 then some [620]
  else if n = 42926 then some [618]
  else if n = 42928 then some [670]
  else if n = 42929 then some [647]
  else if n = 42930 then some [669]
  else if n = 42931 then some [43859]
  else if 42932 ≤ n ∧ n ≤ 42946 ∧ n % 2 = 0 then some [n + 1]
  else if n = 42948 then some [42900]
  else none

/-- Lowercase mapping rules for code points `42949`–`125217`. -/
def pyLowerTab5 (n : Nat) : Option (List Nat) :=
  if n = 42949 then some [642]
  else if n = 42950 then some [7566]
  else if 42951 ≤ n ∧ n ≤ 42953 ∧ n % 2 = 1 then some [n + 1]
  else if n = 42960 then some [42961]
  else if 42966 ≤ n ∧ n ≤ 42968 ∧ n % 2 = 0 then some [n + 1]
  else if n = 42997 then some [42998]
  else if 65313 ≤ n ∧ n ≤ 65338 then some [n + 32]
  else if 66560 ≤ n ∧ n ≤ 66599 then some [n + 40]
  else if 66736 ≤ n ∧ n ≤ 66771 then some [n + 40]
  else if 66928 ≤ n ∧ n ≤ 66938 then some [n + 39]
  else if 66940 ≤ n ∧ n ≤ 66954 then some [n + 39]
  else if 66956 ≤ n ∧ n ≤ 66962 then some [n + 39]
  else if 66964 ≤ n ∧ n ≤ 66965 then some [n + 39]
  else if 68736 ≤ n ∧ n ≤ 68786 then some [n + 64]
  else if 71840 ≤ n ∧ n ≤ 71871 then some [n + 32]
  else if 93760 ≤ n ∧ n ≤ 93791 then some [n + 32]
  else if 125184 ≤ n ∧ n ≤ 125217 then some [n + 34]
  else none

/-- The code-point mapping of Python `str.lower`: dispatches on ascending
blocks; code points outside every rule are unchanged. -/
def pyLowerNat (n : Nat) : List Nat :=
  if n ≤ 428 then (pyLowerTab0 n).getD [n]
  else if n ≤ 895 then (pyLowerTab1 n).getD [n]
  else if n ≤ 7965 then (pyLowerTab2 n).getD [n]
  else if n ≤ 11364 then (pyLowerTab3 n).getD [n]
  else if n ≤ 42948 then (pyLowerTab4 n).getD [n]
  else if n ≤ 125217 then (pyLowerTab5 n).getD [n]
  else [n]

/-- Python `str.lower` on one character: the full default-case lowercase
mapping (a list, since `U+0130` lowers to two characters). -/
def pyLower (c : Char) : Str := (pyLowerNat c.toNat).map Char.ofNat

/-- Python `s.lower()`: each character replaced by its full lowercase
mapping. -/
def lowerStr (s : Str) : Str := s.flatMap pyLower

/-- `TemplateLoader.obter_template`.  `loaded` models
`self.templates.get('templates', [])`, the template array of the catalog;
the key is either an `int` index (`Sum.inl`) or a name string (`Sum.inr`). -/
def obter_template (loaded : List TemplateDict) : Int ⊕ Str → Option TemplateDict
  | .inl idx =>
    if 0 ≤ idx ∧ idx < (loaded.length : Int) then loaded.get? idx.toNat else none
  | .inr nome =>
    loaded.find? (fun t => lowerStr t.nome == lowerStr nome)

/-- `TemplateLoader.obter_template_por_categoria`. -/
def obter_template_por_categoria (loaded : List TemplateDict) (categoria : Str) :
    List TemplateDict :=
  loaded.filter (fun t => lowerStr t.categoria == lowerStr categoria)

/-! ## `prompt_optimizer.py` -/

/-- `PromptOptimizer.self.templates`: the five prompt templates, in dict
insertion order. -/
def templates : List (Str × Str) :=
  [(("criativo").toList,
    ("Atue como \x7bpersona\x7d. \x7bcontexto\x7d Crie \x7boutput_type\x7d sobre \x7btema\x7d com \x7bestilo\x7d.").toList),
   (("técnico").toList,
    ("Você é um especialista em \x7bárea\x7d. \x7bcontexto\x7d Explique \x7bconceito\x7d com \x7bnível_detalhe\x7d.").toList),
   (("análise").toList,
    ("Como \x7bpersona\x7d, analise \x7bobjeto_análise\x7d. \x7bcontexto\x7d Forneça \x7btipo_análise\x7d considerando \x7baspectos\x7d.").toList),
   (("instrução").toList,
    ("Atue como \x7bpersona\x7d. \x7bcontexto\x7d Forneça instruções detalhadas sobre como \x7btarefa\x7d, considerando \x7bconsiderações\x7d.").toList),
   (("pesquisa").toList,
    ("Como pesquisador em \x7bárea\x7d, \x7bcontexto\x7d Investigue \x7btópico\x7d e forneça \x7btipo_resultado\x7d focando em \x7baspectos\x7d.").toList)]

/-- `PromptOptimizer.self.estrutura_prompt`: the three structural templates,
in dict insertion order. -/
def estrutura_prompt : List (Str × Str) :=
  [(("básico").toList, ("\x7binstrução\x7d").toList),
   (("detalhado").toList,
    ("\x7binstrução\x7d\n\nContexto: \x7bcontexto\x7d\nObjetivo: \x7bobjetivo\x7d\nFormato desejado: \x7bformato\x7d").toList),
   (("avançado").toList,
    ("# TAREFA\n\x7binstrução\x7d\n\n# CONTEXTO\n\x7bcontexto\x7d\n\n# OBJETIVO\n\x7bobjetivo\x7d\n\n# FORMATO\n\x7bformato\x7d\n\n# RESTRIÇÕES\n\x7brestrições\x7d\n\n# EXEMPLOS\n\x7bexemplos\x7d").toList)]

/-- Substitution over the parsed segments of a template: every captured
group whose name is bound in `kwargs` is replaced by its value in one
simultaneous pass; an unbound name yields `none` (a `KeyError`). -/
def formatSegs (kwargs : List (Str × Str)) : List Seg → Option Str
  | [] => some []
  | .lit c :: s => (formatSegs kwargs s).map (fun r => c :: r)
  | .hole n :: s =>
    match lookupStr kwargs n, formatSegs kwargs s with
    | some v, some r => some (v ++ r)
    | _, _ => none

/-- Python `template.format(**kwargs)`, modelled for format strings whose
replacement fields are all simple named fields `\x7bname\x7d` (true of every
template in this repository): a single simultaneous pass substituting each
field from `kwargs`, returning `none` for the `KeyError` raised on a field
with no binding. -/
def pyFormat (kwargs : List (Str × Str)) (tmpl : Str) : Option Str :=
  formatSegs kwargs (parseSegs tmpl)

/-- `PromptOptimizer.gerar_prompt_básico` (`kwargs` models `**kwargs`). -/
def gerar_prompt_basico (tipo : Str) (kwargs : List (Str × Str)) : Str :=
  match lookupStr templates tipo with
  | none =>
    ("Tipo inválido. Tipos disponíveis: ").toList ++ joinComma (templates.map Prod.fst)
  | some template =>
    match pyFormat kwargs template with
    | some r => r
    | none =>
      ("Parâmetros faltantes: ").toList ++ joinComma (extrair_placeholders template)

/-- Word splitting of Python `str.split()` (no argument): maximal runs of
non-whitespace characters, with whitespace runs and edges ignored.  The
first argument accumulates the current word, reversed. -/
def wordsAux : Str → Str → List Str
  | [], acc => if acc = [] then [] else [acc.reverse]
  | c :: rest, acc =>
    if c.isWhitespace then
      if acc = [] then wordsAux rest [] else acc.reverse :: wordsAux rest []
    else wordsAux rest (c :: acc)

/-- Python `s.split()`. -/
def pySplit (s : Str) : List Str := wordsAux s []

/-- Line splitting of Python `s.split('\n')`: separator occurrences delimit
the pieces, empty pieces kept, so the result is never empty. -/
def linesAux : Str → Str → List Str
  | [], acc => [acc.reverse]
  | c :: rest, acc =>
    if c = '\n' then acc.reverse :: linesAux rest [] else linesAux rest (c :: acc)

/-- Python `s.split('\n')`. -/
def pySplitNl (s : Str) : List Str := linesAux s []

/-- `PromptOptimizer._expandir_prompt`. -/
def expandir_prompt (prompt : Str) : Str :=
  prompt ++ ("\n\nPor favor, forneça uma resposta detalhada e estruturada. Inclua exemplos relevantes e passos concretos quando aplicável. Considere diferentes perspectivas e contextos.").toList

/-- `PromptOptimizer._estruturar_prompt`. -/
def estruturar_prompt (prompt : Str) : Str :=
  ("# INSTRUÇÃO\n").toList ++ prompt ++
    ("\n\n# FORMATO DESEJADO\n- Comece com uma introdução concisa\n- Organize a informação em seções claras\n- Utilize bullets para pontos importantes\n- Conclua com um resumo aplicável\n- Use linguagem precisa e exemplos quando necessário").toList

/-- `PromptOptimizer._refinar_prompt`. -/
def refinar_prompt (prompt : Str) : Str :=
  let linhas := pySplitNl prompt
  let instrucao := match linhas with
    | [] => prompt
    | l :: _ => l
  ("# OBJETIVO PRINCIPAL\n").toList ++ instrucao ++
    ("\n\n# CONTEXTO\nEntendendo o contexto completo fornecido\n\n# PARÂMETROS DE QUALIDADE\n1. Precisão: Forneça informações corretas e verificáveis\n2. Relevância: Mantenha o foco no objetivo principal\n3. Estrutura: Organize a resposta de forma lógica\n4. Profundidade: Equilibre detalhes suficientes sem prolixidade\n5. Clareza: Use linguagem simples e direta\n\n# PROMPT ORIGINAL\n").toList ++
    prompt

/-- `PromptOptimizer.otimizar_prompt`. -/
def otimizar_prompt (prompt_original : Str) : Str :=
  let palavras := (pySplit prompt_original).length
  if palavras < 10 then expandir_prompt prompt_original
  else if palavras < 30 then estruturar_prompt prompt_original
  else refinar_prompt prompt_original

/-- `PromptOptimizer.gerar_prompt_estruturado`.  Parameter names are the
ASCII foldings of the Python keyword parameters. -/
def gerar_prompt_estruturado (nivel instrucao contexto objetivo formato restricoes exemplos : Str) : Str :=
  match lookupStr estrutura_prompt nivel with
  | none =>
    ("Nível inválido. Níveis disponíveis: ").toList ++
      joinComma (estrutura_prompt.map Prod.fst)
  | some template =>
    let contexto :=
      if contexto = [] ∧ nivel ≠ ("básico").toList
      then ("Considere o contexto atual e as melhores práticas.").toList else contexto
    let objetivo :=
      if objetivo = [] ∧ nivel ≠ ("básico").toList
      then ("Fornecer informação clara, precisa e útil.").toList else objetivo
    let formato :=
      if formato = [] ∧ nivel ≠ ("básico").toList
      then ("Texto estruturado com parágrafos lógicos e pontos principais destacados.").toList else formato
    let restricoes :=
      if restricoes = [] ∧ nivel = ("avançado").toList
      then ("Mantenha a resposta concisa e focada no objetivo.").toList else restricoes
    let exemplos :=
      if exemplos = [] ∧ nivel = ("avançado").toList
      then ("Exemplo 1: [Breve exemplo relacionado]").toList else exemplos
    match pyFormat
        [(("instrução").toList, instrucao), (("contexto").toList, contexto),
         (("objetivo").toList, objetivo), (("formato").toList, formato),
         (("restrições").toList, restricoes), (("exemplos").toList, exemplos)]
        template with
    | some r => r
    | none => []

/-! ## Specification-side definitions -/

/-- Replace every captured group named `k` by the literal text `v`, leaving
every other segment unchanged.  The effect of one `str.replace` step viewed
on segments. -/
def replHole (k v : Str) : List Seg → List Seg
  | [] => []
  | .lit c :: s => .lit c :: replHole k v s
  | .hole n :: s => (if n = k then v.map .lit else [.hole n]) ++ replHole k v s

/-- Segment-level simultaneous substitution: each captured group bound in
`valores` is replaced by its (first) value, unbound groups stay. -/
def substSeg (valores : List (Str × Str)) : List Seg → List Seg
  | [] => []
  | .lit c :: s => .lit c :: substSeg valores s
  | .hole n :: s =>
    (match lookupStr valores n with
     | some v => v.map .lit
     | none => [.hole n]) ++ substSeg valores s

/-- The spec's description of filling: "T's format string with each
placeholder textually replaced by its value from V" — a single simultaneous
literal substitution of every placeholder, never re-scanning substituted
text. -/
def specSimultaneousFill (valores : List (Str × Str)) (tmpl : Str) : Str :=
  render (substSeg valores (parseSegs tmpl))

/-- All `str.replace` steps of `fillLoop`, viewed on segments: a left fold
of `replHole` over the value mapping in insertion order. -/
def applyAll (valores : List (Str × Str)) (segs : List Seg) : List Seg :=
  valores.foldl (fun sg kv => replHole kv.1 kv.2 sg) segs

/-- A segment list that is a fixed point of parse-after-render: the shape
invariant enjoyed by `parseSegs` output and preserved by substitution. -/
def ParseStable (segs : List Seg) : Prop := parseSegs (render segs) = segs

/-! ## Lemmas: prefixes and substring occurrence -/

theorem startsWith_append (p t : Str) : startsWith (p ++ t) p = true := by
  induction p with
  | nil => cases t <;> rfl
  | cons c s ih => simpa [startsWith] using ih

theorem startsWith_iff {s p : Str} : startsWith s p = true ↔ ∃ t, s = p ++ t := by
  induction p generalizing s with
  | nil => simp [startsWith]
  | cons d q ih =>
    cases s with
    | nil => simp [startsWith]
    | cons c s' =>
      simp only [startsWith, Bool.and_eq_true, beq_iff_eq, List.cons_append]
      constructor
      · rintro ⟨rfl, h⟩
        obtain ⟨t, rfl⟩ := ih.mp h
        exact ⟨t, rfl⟩
      · rintro ⟨t, ht⟩
        injection ht with h1 h2
        exact ⟨h1, ih.mpr ⟨t, h2⟩⟩

theorem containsSub_of_startsWith {s p : Str} (h : startsWith s p = true) :
    containsSub s p = true := by
  cases s with
  | nil =>
    cases p with
    | nil => rfl
    | cons d q => simp [startsWith] at h
  | cons c t => simp [containsSub, h]

theorem containsSub_append_right {t p : Str} (h : containsSub t p = true) (x : Str) :
    containsSub (x ++ t) p = true := by
  induction x with
  | nil => exact h
  | cons c x' ih => simp [containsSub, ih]

theorem containsSub_middle (x p y : Str) : containsSub (x ++ (p ++ y)) p = true :=
  containsSub_append_right (containsSub_of_startsWith (startsWith_append p y)) x

theorem containsSub_self (p : Str) : containsSub p p = true := by
  have := containsSub_middle [] p []
  simpa using this

/-! ## Lemmas: `takeName` -/

theorem dropWhile_head_not {p : Char → Bool} :
    ∀ {l : Str} {c : Char} {r : Str}, l.dropWhile p = c :: r → p c = false
  | [], _, _, h => by simp at h
  | a :: l, c, r, h => by
    by_cases hp : p a
    · rw [List.dropWhile_cons_of_pos hp] at h
      exact dropWhile_head_not h
    · rw [List.dropWhile_cons_of_neg hp] at h
      injection h with h1 _
      subst h1
      exact Bool.eq_false_iff.mpr hp

theorem takeName_some_spec {s n r : Str} (h : takeName s = some (n, r)) :
    s = n ++ cbrace :: r ∧ n ≠ [] ∧ (∀ c ∈ n, c ≠ cbrace) := by
  unfold takeName at h
  rcases htw : s.takeWhile (fun c => c ≠ cbrace) with _ | ⟨a, tw⟩
  · rcases hdw : s.dropWhile (fun c => c ≠ cbrace) with _ | ⟨b, dw⟩ <;>
      rw [htw, hdw] at h <;> exact Option.noConfusion h
  · rcases hdw : s.dropWhile (fun c => c ≠ cbrace) with _ | ⟨b, dw⟩
    · rw [htw, hdw] at h
      exact Option.noConfusion h
    · rw [htw, hdw] at h
      have h' : ((a :: tw : Str), dw) = (n, r) := Option.some.inj h
      injection h' with hn hr
      subst hn
      subst hr
      have hb : b = cbrace := by
        have := dropWhile_head_not hdw
        simpa using this
      subst hb
      refine ⟨?_, by simp, ?_⟩
      · have hs := List.takeWhile_append_dropWhile (fun c => c ≠ cbrace) s
        rw [htw, hdw] at hs
        exact hs.symm
      · intro c hc
        have hmem : c ∈ s.takeWhile (fun c => c ≠ cbrace) := by rw [htw]; exact hc
        have := List.mem_takeWhile_imp hmem
        simpa using this

theorem takeName_some_length {s n r : Str} (h : takeName s = some (n, r)) :
    r.length < s.length := by
  obtain ⟨hs, hn, -⟩ := takeName_some_spec h
  rw [hs]
  simp
  cases n with
  | nil => exact absurd rfl hn
  | cons a l => omega

theorem takeName_none_cases {s : Str} (h : takeName s = none) :
    s = [] ∨ (∃ t, s = cbrace :: t) ∨ (∀ c ∈ s, c ≠ cbrace) := by
  unfold takeName at h
  rcases htw : s.takeWhile (fun c => c ≠ cbrace) with _ | ⟨a, tw⟩
  · rcases hdw : s.dropWhile (fun c => c ≠ cbrace) with _ | ⟨b, dw⟩
    · left
      have hs := List.takeWhile_append_dropWhile (fun c => c ≠ cbrace) s
      rw [htw, hdw] at hs
      exact hs.symm
    · right; left
      have hs := List.takeWhile_append_dropWhile (fun c => c ≠ cbrace) s
      rw [htw, hdw] at hs
      have hb : b = cbrace := by
        have := dropWhile_head_not hdw
        simpa using this
      refine ⟨dw, ?_⟩
      rw [← hs, hb]
      rfl
  · rcases hdw : s.dropWhile (fun c => c ≠ cbrace) with _ | ⟨b, dw⟩
    · right; right
      intro c hc
      have hs := List.takeWhile_append_dropWhile (fun c => c ≠ cbrace) s
      rw [htw, hdw, List.append_nil] at hs
      have hmem : c ∈ s.takeWhile (fun c => c ≠ cbrace) := by rw [htw, hs]; exact hc
      have := List.mem_takeWhile_imp hmem
      simpa using this
    · rw [htw, hdw] at h
      exact Option.noConfusion h

theorem takeName_of_shape {n : Str} (r : Str) (hn : n ≠ []) (hc : ∀ c ∈ n, c ≠ cbrace) :
    takeName (n ++ cbrace :: r) = some (n, r) := by
  unfold takeName
  have htw : (n ++ cbrace :: r).takeWhile (fun c => c ≠ cbrace) = n := by
    rw [List.takeWhile_append_of_pos (by simpa using hc)]
    simp
  have hdw : (n ++ cbrace :: r).dropWhile (fun c => c ≠ cbrace) = cbrace :: r := by
    rw [List.dropWhile_append_of_pos (by simpa using hc)]
    simp
  rw [htw, hdw]
  cases n with
  | nil => exact absurd rfl hn
  | cons a l => rfl

/-! ## Lemmas: the fuelled scanners reduce like their recursive equations -/

theorem parseSegsF_nil (f : Nat) : parseSegsF f [] = [] := by
  cases f <;> rfl

theorem replaceAllF_nil (old new : Str) (f : Nat) : replaceAllF old new f [] = [] := by
  cases f <;> rfl

theorem parseSegsF_succ (f : Nat) (c : Char) (rest : Str) :
    parseSegsF (f + 1) (c :: rest) =
      if c = obrace then
        match takeName rest with
        | some (n, r) => .hole n :: parseSegsF f r
        | none => .lit c :: parseSegsF f rest
      else .lit c :: parseSegsF f rest := rfl

theorem replaceAllF_succ (old new : Str) (f : Nat) (c : Char) (rest : Str) :
    replaceAllF old new (f + 1) (c :: rest) =
      if startsWith (c :: rest) old = true ∧ old ≠ [] then
        new ++ replaceAllF old new f ((c :: rest).drop old.length)
      else c :: replaceAllF old new f rest := rfl

theorem parseSegsF_congr : ∀ (f₁ f₂ : Nat) (s : Str), s.length ≤ f₁ → s.length ≤ f₂ →
    parseSegsF f₁ s = parseSegsF f₂ s
  | 0, f₂, s, h1, _ => by
    have hs : s = [] := List.length_eq_zero.mp (Nat.le_zero.mp h1)
    subst hs
    rw [parseSegsF_nil, parseSegsF_nil]
  | _ + 1, f₂, [], _, _ => by rw [parseSegsF_nil, parseSegsF_nil]
  | f + 1, f₂, c :: rest, h1, h2 => by
    cases f₂ with
    | zero => simp at h2
    | succ g =>
      have hrest1 : rest.length ≤ f := by
        simp only [List.length_cons] at h1
        omega
      have hrest2 : rest.length ≤ g := by
        simp only [List.length_cons] at h2
        omega
      rw [parseSegsF_succ, parseSegsF_succ]
      by_cases hc : c = obrace
      · rw [if_pos hc, if_pos hc]
        rcases htn : takeName rest with _ | ⟨n, r⟩
        · show Seg.lit c :: parseSegsF f rest = Seg.lit c :: parseSegsF g rest
          rw [parseSegsF_congr f g rest hrest1 hrest2]
        · have hlen := takeName_some_length htn
          show Seg.hole n :: parseSegsF f r = Seg.hole n :: parseSegsF g r
          rw [parseSegsF_congr f g r (by omega) (by omega)]
      · rw [if_neg hc, if_neg hc, parseSegsF_congr f g rest hrest1 hrest2]

theorem replaceAllF_congr : ∀ (f₁ f₂ : Nat) (old new s : Str),
    s.length ≤ f₁ → s.length ≤ f₂ → replaceAllF old new f₁ s = replaceAllF old new f₂ s
  | 0, f₂, old, new, s, h1, _ => by
    have hs : s = [] := List.length_eq_zero.mp (Nat.le_zero.mp h1)
    subst hs
    rw [replaceAllF_nil, replaceAllF_nil]
  | _ + 1, f₂, old, new, [], _, _ => by rw [replaceAllF_nil, replaceAllF_nil]
  | f + 1, f₂, old, new, c :: rest, h1, h2 => by
    cases f₂ with
    | zero => simp at h2
    | succ g =>
      have hrest1 : rest.length ≤ f := by
        simp only [List.length_cons] at h1
        omega
      have hrest2 : rest.length ≤ g := by
        simp only [List.length_cons] at h2
        omega
      rw [replaceAllF_succ, replaceAllF_succ]
      by_cases hcond : startsWith (c :: rest) old = true ∧ old ≠ []
      · rw [if_pos hcond, if_pos hcond]
        have hone : 1 ≤ old.length := by
          cases old with
          | nil => exact absurd rfl hcond.2
          | cons _ _ => simp
        have hdrop : ((c :: rest).drop old.length).length ≤ rest.length := by
          simp only [List.length_drop, List.length_cons]
          omega
        rw [replaceAllF_congr f g old new _ (by omega) (by omega)]
      · rw [if_neg hcond, if_neg hcond,
          replaceAllF_congr f g old new rest hrest1 hrest2]

/-! ## Step equations for `parseSegs` and `replaceAll` -/

theorem parseSegs_nil : parseSegs [] = [] := rfl

theorem parseSegs_cons_not {c : Char} (hc : c ≠ obrace) (s : Str) :
    parseSegs (c :: s) = .lit c :: parseSegs s := by
  show parseSegsF (s.length + 1) (c :: s) = _
  rw [parseSegsF_succ, if_neg hc]
  rfl

theorem parseSegs_brace_none {s : Str} (h : takeName s = none) :
    parseSegs (obrace :: s) = .lit obrace :: parseSegs s := by
  show parseSegsF (s.length + 1) (obrace :: s) = _
  rw [parseSegsF_succ, if_pos rfl, h]
  rfl

theorem parseSegs_brace_some {s n r : Str} (h : takeName s = some (n, r)) :
    parseSegs (obrace :: s) = .hole n :: parseSegs r := by
  show parseSegsF (s.length + 1) (obrace :: s) = _
  rw [parseSegsF_succ, if_pos rfl, h]
  show Seg.hole n :: parseSegsF s.length r = Seg.hole n :: parseSegs r
  have hlen := takeName_some_length h
  rw [parseSegsF_congr s.length r.length r (by omega) (le_refl _)]
  rfl

theorem replaceAll_cons (old new : Str) (c : Char) (rest : Str) :
    replaceAll old new (c :: rest) =
      if startsWith (c :: rest) old = true ∧ old ≠ [] then
        new ++ replaceAll old new ((c :: rest).drop old.length)
      else c :: replaceAll old new rest := by
  show replaceAllF old new (rest.length + 1) (c :: rest) = _
  rw [replaceAllF_succ]
  by_cases hcond : startsWith (c :: rest) old = true ∧ old ≠ []
  · rw [if_pos hcond, if_pos hcond]
    have hone : 1 ≤ old.length := by
      cases old with
      | nil => exact absurd rfl hcond.2
      | cons _ _ => simp
    rw [replaceAllF_congr rest.length ((c :: rest).drop old.length).length old new _
      (by simp only [List.length_drop, List.length_cons]; omega) (le_refl _)]
    rfl
  · rw [if_neg hcond, if_neg hcond]
    rfl

/-! ## Parsing round-trips -/

theorem render_parse_le : ∀ (N : Nat) (s : Str), s.length ≤ N → render (parseSegs s) = s
  | 0, s, h => by
    have hs : s = [] := List.length_eq_zero.mp (Nat.le_zero.mp h)
    subst hs
    rfl
  | _ + 1, [], _ => rfl
  | N + 1, c :: rest, h => by
    have hrest : rest.length ≤ N := by
      simp only [List.length_cons] at h
      omega
    by_cases hc : c = obrace
    · subst hc
      rcases htn : takeName rest with _ | ⟨n, r⟩
      · rw [parseSegs_brace_none htn]
        simp only [render]
        rw [render_parse_le N rest hrest]
      · rw [parseSegs_brace_some htn]
        obtain ⟨hs, _, _⟩ := takeName_some_spec htn
        have hlen := takeName_some_length htn
        simp only [render]
        rw [render_parse_le N r (by omega), hs]
    · rw [parseSegs_cons_not hc]
      simp only [render]
      rw [render_parse_le N rest hrest]

theorem render_parse (s : Str) : render (parseSegs s) = s :=
  render_parse_le s.length s (le_refl _)

theorem parseStable_parse (s : Str) : ParseStable (parseSegs s) := by
  unfold ParseStable
  rw [render_parse]

/-! ## Algebra of `render`, `holesOf`, `replHole` -/

theorem render_append (a b : List Seg) : render (a ++ b) = render a ++ render b := by
  induction a with
  | nil => rfl
  | cons x s ih =>
    cases x with
    | lit c => simp [render, ih]
    | hole n => simp [render, ih]

theorem render_map_lit (w : Str) : render (w.map .lit) = w := by
  induction w with
  | nil => rfl
  | cons c t ih => simp [render, ih]

theorem holesOf_append (a b : List Seg) : holesOf (a ++ b) = holesOf a ++ holesOf b := by
  induction a with
  | nil => rfl
  | cons x s ih =>
    cases x with
    | lit c => simp [holesOf, ih]
    | hole n => simp [holesOf, ih]

theorem holesOf_map_lit (w : Str) : holesOf (w.map .lit) = [] := by
  induction w with
  | nil => rfl
  | cons c t ih => simpa [holesOf] using ih

theorem replHole_append (k v : Str) (a b : List Seg) :
    replHole k v (a ++ b) = replHole k v a ++ replHole k v b := by
  induction a with
  | nil => rfl
  | cons x s ih =>
    cases x with
    | lit c => simp [replHole, ih]
    | hole n => simp [replHole, ih]

theorem replHole_map_lit (k v w : Str) : replHole k v (w.map .lit) = w.map .lit := by
  induction w with
  | nil => rfl
  | cons c t ih => simp [replHole, ih]

theorem holesOf_replHole_sub {k v : Str} :
    ∀ {segs : List Seg} {n : Str}, n ∈ holesOf (replHole k v segs) → n ∈ holesOf segs := by
  intro segs
  induction segs with
  | nil => intro n h; simp [replHole, holesOf] at h
  | cons x s ih =>
    intro n h
    cases x with
    | lit c =>
      simp only [replHole, holesOf] at h ⊢
      exact ih h
    | hole m =>
      by_cases hm : m = k
      · rw [show replHole k v (.hole m :: s) = (v.map .lit) ++ replHole k v s by
          simp [replHole, hm]] at h
        rw [holesOf_append, holesOf_map_lit] at h
        simp only [List.nil_append] at h
        simp only [holesOf, List.mem_cons]
        exact Or.inr (ih h)
      · rw [show replHole k v (.hole m :: s) = .hole m :: replHole k v s by
          simp [replHole, hm]] at h
        simp only [holesOf, List.mem_cons] at h ⊢
        rcases h with h | h
        · exact Or.inl h
        · exact Or.inr (ih h)

theorem replHole_of_not_mem {k v : Str} :
    ∀ {segs : List Seg}, k ∉ holesOf segs → replHole k v segs = segs := by
  intro segs
  induction segs with
  | nil => intro; rfl
  | cons x s ih =>
    intro h
    cases x with
    | lit c =>
      simp only [holesOf] at h
      simp [replHole, ih h]
    | hole m =>
      simp only [holesOf, List.mem_cons] at h
      push_neg at h
      have hm : m ≠ k := fun he => h.1 he.symm
      simp [replHole, hm, ih h.2]

/-! ## The parse-stability invariant -/

theorem parseStable_nil : ParseStable [] := rfl

theorem parseStable_lit {c : Char} {rest : List Seg} (h : ParseStable (.lit c :: rest)) :
    ParseStable rest ∧ (c = obrace → takeName (render rest) = none) := by
  unfold ParseStable at h
  rw [show render (.lit c :: rest) = c :: render rest from rfl] at h
  by_cases hc : c = obrace
  · subst hc
    rcases htn : takeName (render rest) with _ | ⟨n, r⟩
    · rw [parseSegs_brace_none htn] at h
      injection h with _ h2
      exact ⟨h2, fun _ => rfl⟩
    · rw [parseSegs_brace_some htn] at h
      injection h with h1 _
      exact Seg.noConfusion h1
  · rw [parseSegs_cons_not hc] at h
    injection h with _ h2
    exact ⟨h2, fun hcc => absurd hcc hc⟩

theorem parseStable_hole {n : Str} {rest : List Seg} (h : ParseStable (.hole n :: rest)) :
    ParseStable rest ∧ n ≠ [] ∧ (∀ c ∈ n, c ≠ cbrace) := by
  unfold ParseStable at h
  rw [show render (.hole n :: rest) = obrace :: (n ++ cbrace :: render rest) from rfl] at h
  rcases htn : takeName (n ++ cbrace :: render rest) with _ | ⟨m, r⟩
  · rw [parseSegs_brace_none htn] at h
    injection h with h1 _
    exact Seg.noConfusion h1
  · rw [parseSegs_brace_some htn] at h
    injection h with h1 h2
    have hmn : m = n := by
      have := h1
      injection this
    obtain ⟨hs, hm, hcs⟩ := takeName_some_spec htn
    subst hmn
    have hr : r = render rest := by
      have := List.append_cancel_left hs.symm
      injection this
    refine ⟨?_, hm, hcs⟩
    unfold ParseStable
    rw [← hr, h2]

/-! ## Stability is preserved by hole replacement -/

theorem dropWhile_nil_of_all {p : Char → Bool} :
    ∀ {s : Str}, (∀ c ∈ s, p c = true) → s.dropWhile p = []
  | [], _ => rfl
  | c :: t, h => by
    rw [List.dropWhile_cons_of_pos (h c (by simp))]
    exact dropWhile_nil_of_all (fun d hd => h d (by simp [hd]))

theorem takeName_none_of_all {s : Str} (h : ∀ c ∈ s, c ≠ cbrace) : takeName s = none := by
  unfold takeName
  have hdw : s.dropWhile (fun c => c ≠ cbrace) = [] := by
    apply dropWhile_nil_of_all
    intro c hc
    simpa using h c hc
  rw [hdw]
  cases htw : s.takeWhile (fun c => c ≠ cbrace) <;> rfl

theorem takeName_nil : takeName ([] : Str) = none := rfl

theorem takeName_cbrace (t : Str) : takeName (cbrace :: t) = none := by
  unfold takeName
  rw [List.takeWhile_cons_of_neg (by simp)]
  cases hdw : (cbrace :: t).dropWhile (fun c => c ≠ cbrace) <;> rfl

theorem render_eq_nil {segs : List Seg} (h : render segs = []) : segs = [] := by
  cases segs with
  | nil => rfl
  | cons x s =>
    cases x with
    | lit c => simp [render] at h
    | hole n => simp [render] at h

theorem mem_render_replHole {k v : Str} {c : Char} :
    ∀ {segs : List Seg}, c ∈ render (replHole k v segs) → c ∈ render segs ∨ c ∈ v := by
  intro segs
  induction segs with
  | nil => intro h; simp [replHole, render] at h
  | cons x s ih =>
    intro h
    cases x with
    | lit d =>
      simp only [replHole, render, List.mem_cons] at h ⊢
      rcases h with h | h
      · exact Or.inl (Or.inl h)
      · rcases ih h with h' | h'
        · exact Or.inl (Or.inr h')
        · exact Or.inr h'
    | hole n =>
      by_cases hn : n = k
      · rw [show replHole k v (.hole n :: s) = (v.map .lit) ++ replHole k v s by
          simp [replHole, hn]] at h
        rw [render_append, render_map_lit] at h
        rcases List.mem_append.mp h with h | h
        · exact Or.inr h
        · rcases ih h with h' | h'
          · refine Or.inl ?_
            simp only [render, List.mem_cons, List.mem_append]
            right; right; right
            exact h'
          · exact Or.inr h'
      · rw [show replHole k v (.hole n :: s) = .hole n :: replHole k v s by
          simp [replHole, hn]] at h
        simp only [render, List.mem_cons, List.mem_append] at h ⊢
        rcases h with h | h | h | h
        · exact Or.inl (Or.inl h)
        · exact Or.inl (Or.inr (Or.inl h))
        · exact Or.inl (Or.inr (Or.inr (Or.inl h)))
        · rcases ih h with h' | h'
          · exact Or.inl (Or.inr (Or.inr (Or.inr h')))
          · exact Or.inr h'

theorem takeName_none_replHole {k v : Str} (hv : braceFree v) :
    ∀ {rest : List Seg}, takeName (render rest) = none →
      takeName (render (replHole k v rest)) = none := by
  intro rest h
  rcases takeName_none_cases h with h0 | ⟨t, ht⟩ | hall
  · rw [render_eq_nil h0]
    exact takeName_nil
  · cases rest with
    | nil => exact takeName_nil
    | cons x s =>
      cases x with
      | lit d =>
        have hd : d = cbrace := by
          simp only [render] at ht
          injection ht with h1 _
        subst hd
        rw [show replHole k v (.lit cbrace :: s) = .lit cbrace :: replHole k v s from rfl]
        rw [show render (.lit cbrace :: replHole k v s) = cbrace :: render (replHole k v s)
          from rfl]
        exact takeName_cbrace _
      | hole n =>
        exfalso
        simp only [render] at ht
        injection ht with h1 _
        have : obrace ≠ cbrace := by decide
        exact this h1
  · apply takeName_none_of_all
    intro c hc
    rcases mem_render_replHole hc with h' | h'
    · exact hall c h'
    · intro he
      exact hv.2 (he ▸ h')

theorem parseSegs_append_litfree {w : Str} (hw : ∀ c ∈ w, c ≠ obrace) (t : Str) :
    parseSegs (w ++ t) = w.map .lit ++ parseSegs t := by
  induction w with
  | nil => rfl
  | cons c w' ih =>
    have hc : c ≠ obrace := hw c (by simp)
    rw [List.cons_append, parseSegs_cons_not hc, ih (fun d hd => hw d (by simp [hd]))]
    rfl

theorem parseStable_replHole (k v : Str) (hv : braceFree v) :
    ∀ (segs : List Seg), ParseStable segs → ParseStable (replHole k v segs)
  | [], _ => parseStable_nil
  | .lit c :: rest, h => by
    obtain ⟨hrest, hbr⟩ := parseStable_lit h
    have ih := parseStable_replHole k v hv rest hrest
    unfold ParseStable
    rw [show replHole k v (.lit c :: rest) = .lit c :: replHole k v rest from rfl]
    rw [show render (.lit c :: replHole k v rest) = c :: render (replHole k v rest) from rfl]
    by_cases hc : c = obrace
    · subst hc
      have htn := @takeName_none_replHole k v hv rest (hbr rfl)
      rw [parseSegs_brace_none htn, ih]
    · rw [parseSegs_cons_not hc, ih]
  | .hole n :: rest, h => by
    obtain ⟨hrest, hn, hcs⟩ := parseStable_hole h
    have ih := parseStable_replHole k v hv rest hrest
    by_cases hnk : n = k
    · unfold ParseStable
      rw [show replHole k v (.hole n :: rest) = (v.map .lit) ++ replHole k v rest by
        simp [replHole, hnk]]
      rw [render_append, render_map_lit]
      rw [parseSegs_append_litfree (fun c hc he => hv.1 (he ▸ hc)) _]
      rw [ih]
    · unfold ParseStable
      rw [show replHole k v (.hole n :: rest) = .hole n :: replHole k v rest by
        simp [replHole, hnk]]
      rw [show render (.hole n :: replHole k v rest) =
        obrace :: (n ++ cbrace :: render (replHole k v rest)) from rfl]
      rw [parseSegs_brace_some (takeName_of_shape _ hn hcs), ih]

/-! ## `replaceAll` against the segment view -/

theorem replaceAll_of_not_contains {tok v s : Str} (h : containsSub s tok = false) :
    replaceAll tok v s = s := by
  induction s with
  | nil => rfl
  | cons c t ih =>
    simp only [containsSub, Bool.or_eq_false_iff] at h
    rw [replaceAll_cons]
    have hneg : ¬(startsWith (c :: t) tok = true ∧ tok ≠ []) := by
      rintro ⟨hsw, _⟩
      rw [h.1] at hsw
      exact Bool.noConfusion hsw
    rw [if_neg hneg, ih h.2]

theorem replaceAll_skip {tok v : Str} (htok : ∃ t0, tok = obrace :: t0) :
    ∀ {pre : Str}, (∀ c ∈ pre, c ≠ obrace) → ∀ (t : Str),
      replaceAll tok v (pre ++ t) = pre ++ replaceAll tok v t := by
  intro pre
  induction pre with
  | nil => intro _ t; rfl
  | cons c p ih =>
    intro hp t
    have hc : c ≠ obrace := hp c (by simp)
    rw [List.cons_append, replaceAll_cons]
    have hneg : ¬(startsWith (c :: (p ++ t)) tok = true ∧ tok ≠ []) := by
      rintro ⟨hsw, _⟩
      obtain ⟨t0, rfl⟩ := htok
      simp only [startsWith, Bool.and_eq_true, beq_iff_eq] at hsw
      exact hc hsw.1
    rw [if_neg hneg, ih (fun d hd => hp d (by simp [hd])) t]
    rfl

theorem startsWith_name_iff :
    ∀ (n : Str) (k t : Str), (∀ c ∈ n, c ≠ cbrace) → (∀ c ∈ k, c ≠ cbrace) →
      (startsWith (n ++ cbrace :: t) (k ++ [cbrace]) = true ↔ n = k) := by
  intro n
  induction n with
  | nil =>
    intro k t _ hk
    cases k with
    | nil => simp [startsWith]
    | cons d k2 =>
      have hd : d ≠ cbrace := hk d (by simp)
      simp only [List.nil_append, List.cons_append]
      constructor
      · intro h
        simp only [startsWith, Bool.and_eq_true, beq_iff_eq] at h
        exact absurd h.1.symm hd
      · intro h
        exact absurd h (by simp)
  | cons a n2 ih =>
    intro k t hn hk
    have ha : a ≠ cbrace := hn a (by simp)
    cases k with
    | nil =>
      simp only [List.cons_append, List.nil_append]
      constructor
      · intro h
        simp only [startsWith, Bool.and_eq_true, beq_iff_eq] at h
        exact absurd h.1 ha
      · intro h
        exact absurd h (by simp)
    | cons d k2 =>
      simp only [List.cons_append, startsWith, Bool.and_eq_true, beq_iff_eq]
      constructor
      · rintro ⟨had, h⟩
        have := (ih k2 t (fun c hc => hn c (by simp [hc])) (fun c hc => hk c (by simp [hc]))).mp h
        rw [had, this]
      · intro h
        injection h with h1 h2
        exact ⟨h1, (ih k2 t (fun c hc => hn c (by simp [hc]))
          (fun c hc => hk c (by simp [hc]))).mpr h2⟩

theorem replaceAll_render (k v : Str) (hk : braceFree k) (hkne : k ≠ []) (hv : braceFree v) :
    ∀ (segs : List Seg), ParseStable segs → (∀ n ∈ holesOf segs, obrace ∉ n) →
      replaceAll (obrace :: (k ++ [cbrace])) v (render segs) = render (replHole k v segs)
  | [], _, _ => rfl
  | .lit c :: rest, h, hh => by
    obtain ⟨hrest, hbr⟩ := parseStable_lit h
    have ih := replaceAll_render k v hk hkne hv rest hrest
      (fun m hm => hh m (by simpa [holesOf] using hm))
    rw [show render (.lit c :: rest) = c :: render rest from rfl, replaceAll_cons]
    have hneg : ¬(startsWith (c :: render rest) (obrace :: (k ++ [cbrace])) = true ∧
        (obrace :: (k ++ [cbrace]) : Str) ≠ []) := by
      rintro ⟨hsw, _⟩
      simp only [startsWith, Bool.and_eq_true, beq_iff_eq] at hsw
      obtain ⟨hc, hsw2⟩ := hsw
      have htn := hbr hc
      obtain ⟨t, ht⟩ := startsWith_iff.mp hsw2
      rcases takeName_none_cases htn with h0 | ⟨t2, ht2⟩ | hall
      · rw [h0] at ht
        simp at ht
      · rw [ht2] at ht
        cases k with
        | nil => exact hkne rfl
        | cons a k2 =>
          simp only [List.cons_append, List.append_assoc] at ht
          injection ht with h1 _
          exact hk.2 (by rw [h1]; simp)
      · have hcb : cbrace ∈ render rest := by
          rw [ht]
          simp
        exact hall cbrace hcb rfl
    rw [if_neg hneg]
    rw [show replHole k v (.lit c :: rest) = .lit c :: replHole k v rest from rfl]
    rw [show render (.lit c :: replHole k v rest) = c :: render (replHole k v rest) from rfl, ih]
  | .hole n :: rest, h, hh => by
    obtain ⟨hrest, hn, hcs⟩ := parseStable_hole h
    have hhn : obrace ∉ n := hh n (by simp [holesOf])
    have ih := replaceAll_render k v hk hkne hv rest hrest
      (fun m hm => hh m (by simp [holesOf, hm]))
    rw [show render (.hole n :: rest) = obrace :: (n ++ cbrace :: render rest) from rfl]
    by_cases hnk : n = k
    · subst hnk
      rw [replaceAll_cons]
      have hdecomp : (obrace :: (n ++ cbrace :: render rest) : Str) =
          (obrace :: (n ++ [cbrace])) ++ render rest := by
        simp
      have hpos : startsWith (obrace :: (n ++ cbrace :: render rest))
          (obrace :: (n ++ [cbrace])) = true ∧ (obrace :: (n ++ [cbrace]) : Str) ≠ [] := by
        constructor
        · rw [hdecomp]
          exact startsWith_append _ _
        · simp
      rw [if_pos hpos]
      have hdrop : ((obrace :: (n ++ cbrace :: render rest)).drop
          (obrace :: (n ++ [cbrace])).length) = render rest := by
        rw [hdecomp]
        exact List.drop_left _ _
      rw [hdrop, ih]
      rw [show replHole n v (.hole n :: rest) = (v.map .lit) ++ replHole n v rest by
        simp [replHole]]
      rw [render_append, render_map_lit]
    · rw [replaceAll_cons]
      have hneg : ¬(startsWith (obrace :: (n ++ cbrace :: render rest))
          (obrace :: (k ++ [cbrace])) = true ∧ (obrace :: (k ++ [cbrace]) : Str) ≠ []) := by
        rintro ⟨hsw, _⟩
        simp only [startsWith, Bool.and_eq_true, beq_iff_eq] at hsw
        have := (startsWith_name_iff n k (render rest) hcs
          (fun c hc he => hk.2 (he ▸ hc))).mp hsw.2
        exact hnk this
      rw [if_neg hneg]
      rw [show (n ++ cbrace :: render rest : Str) = (n ++ [cbrace]) ++ render rest by simp]
      have hpre : ∀ c ∈ n ++ [cbrace], c ≠ obrace := by
        intro c hc
        rcases List.mem_append.mp hc with hc | hc
        · intro he
          exact hhn (he ▸ hc)
        · intro he
          rw [List.mem_singleton.mp hc] at he
          exact absurd he (by decide)
      rw [replaceAll_skip ⟨k ++ [cbrace], rfl⟩ hpre (render rest), ih]
      rw [show replHole k v (.hole n :: rest) = .hole n :: replHole k v rest by
        simp [replHole, hnk]]
      rw [show render (.hole n :: replHole k v rest) =
        obrace :: (n ++ cbrace :: render (replHole k v rest)) from rfl]
      simp

/-! ## The fold of all replace steps -/

theorem applyAll_cons (k v : Str) (rest : List (Str × Str)) (segs : List Seg) :
    applyAll ((k, v) :: rest) segs = applyAll rest (replHole k v segs) := rfl

theorem applyAll_nil_segs : ∀ (valores : List (Str × Str)), applyAll valores [] = []
  | [] => rfl
  | (k, v) :: rest => by
    rw [applyAll_cons, show replHole k v [] = [] from rfl]
    exact applyAll_nil_segs rest

theorem applyAll_append (valores : List (Str × Str)) :
    ∀ (a b : List Seg), applyAll valores (a ++ b) = applyAll valores a ++ applyAll valores b := by
  induction valores with
  | nil => intro a b; rfl
  | cons kv rest ih =>
    intro a b
    obtain ⟨k, v⟩ := kv
    rw [applyAll_cons, applyAll_cons, applyAll_cons, replHole_append, ih]

theorem applyAll_map_lit (valores : List (Str × Str)) (w : Str) :
    applyAll valores (w.map .lit) = w.map .lit := by
  induction valores with
  | nil => rfl
  | cons kv rest ih =>
    obtain ⟨k, v⟩ := kv
    rw [applyAll_cons, replHole_map_lit]
    exact ih

theorem applyAll_hole_some {valores : List (Str × Str)} {n v0 : Str}
    (h : lookupStr valores n = some v0) : applyAll valores [.hole n] = v0.map .lit := by
  induction valores with
  | nil => exact Option.noConfusion h
  | cons kv rest ih =>
    obtain ⟨k, v⟩ := kv
    rw [applyAll_cons]
    by_cases hk : k = n
    · have hv : v = v0 := by
        unfold lookupStr at h
        rw [if_pos hk] at h
        exact Option.some.inj h
      rw [show replHole k v [.hole n] = v.map .lit by simp [replHole, hk.symm]]
      rw [applyAll_map_lit, hv]
    · have h2 : lookupStr rest n = some v0 := by
        unfold lookupStr at h
        rwa [if_neg hk] at h
      rw [show replHole k v [.hole n] = [.hole n] by
        simp only [replHole, List.append_nil]
        rw [if_neg (fun he => hk (Eq.symm he))]]
      exact ih h2

theorem applyAll_hole_none {valores : List (Str × Str)} {n : Str}
    (h : lookupStr valores n = none) : applyAll valores [.hole n] = [.hole n] := by
  induction valores with
  | nil => rfl
  | cons kv rest ih =>
    obtain ⟨k, v⟩ := kv
    unfold lookupStr at h
    by_cases hk : k = n
    · rw [if_pos hk] at h
      exact Option.noConfusion h
    · rw [if_neg hk] at h
      rw [applyAll_cons]
      rw [show replHole k v [.hole n] = [.hole n] by
        simp only [replHole, List.append_nil]
        rw [if_neg (fun he => hk (Eq.symm he))]]
      exact ih h

theorem substSeg_eq_applyAll (valores : List (Str × Str)) :
    ∀ (segs : List Seg), substSeg valores segs = applyAll valores segs := by
  intro segs
  induction segs with
  | nil => rw [applyAll_nil_segs]; rfl
  | cons x s ih =>
    have hsplit : applyAll valores (x :: s) = applyAll valores [x] ++ applyAll valores s := by
      have := applyAll_append valores [x] s
      simpa using this
    cases x with
    | lit c =>
      have h1 : applyAll valores [.lit c] = [.lit c] := by
        have := applyAll_map_lit valores [c]
        simpa using this
      rw [hsplit, h1, show substSeg valores (.lit c :: s) = .lit c :: substSeg valores s
        from rfl, ih]
      rfl
    | hole n =>
      rcases hl : lookupStr valores n with _ | v0
      · have h2 : substSeg valores (.hole n :: s) = [.hole n] ++ substSeg valores s := by
          show (match lookupStr valores n with
            | some v => v.map Seg.lit
            | none => [Seg.hole n]) ++ substSeg valores s = _
          rw [hl]
        rw [hsplit, applyAll_hole_none hl, h2, ih]
      · have h2 : substSeg valores (.hole n :: s) = v0.map .lit ++ substSeg valores s := by
          show (match lookupStr valores n with
            | some v => v.map Seg.lit
            | none => [Seg.hole n]) ++ substSeg valores s = _
          rw [hl]
        rw [hsplit, applyAll_hole_some hl, h2, ih]

theorem parseStable_applyAll :
    ∀ (valores : List (Str × Str)) (segs : List Seg),
      (∀ kv ∈ valores, braceFree kv.2) → ParseStable segs →
      ParseStable (applyAll valores segs)
  | [], _, _, h => h
  | (k, v) :: rest, segs, hv, h => by
    rw [applyAll_cons]
    exact parseStable_applyAll rest _ (fun kv hkv => hv kv (by simp [hkv]))
      (parseStable_replHole k v (hv (k, v) (by simp)) segs h)

theorem holesOf_applyAll_sub :
    ∀ (valores : List (Str × Str)) (segs : List Seg) {n : Str},
      n ∈ holesOf (applyAll valores segs) → n ∈ holesOf segs
  | [], _, _, h => h
  | (k, v) :: rest, segs, n, h => by
    rw [applyAll_cons] at h
    exact holesOf_replHole_sub (holesOf_applyAll_sub rest _ h)

theorem containsSub_of_hole {k : Str} :
    ∀ {segs : List Seg}, k ∈ holesOf segs →
      containsSub (render segs) (obrace :: (k ++ [cbrace])) = true := by
  intro segs
  induction segs with
  | nil => intro h; simp [holesOf] at h
  | cons x s ih =>
    intro h
    cases x with
    | lit c =>
      simp only [holesOf] at h
      rw [show render (.lit c :: s) = c :: render s from rfl]
      simp only [containsSub, ih h, Bool.or_true]
    | hole n =>
      simp only [holesOf, List.mem_cons] at h
      rw [show render (.hole n :: s) = obrace :: (n ++ cbrace :: render s) from rfl]
      rcases h with rfl | h
      · apply containsSub_of_startsWith
        rw [show (obrace :: (k ++ cbrace :: render s) : Str) =
          (obrace :: (k ++ [cbrace])) ++ render s by simp]
        exact startsWith_append _ _
      · rw [show (obrace :: (n ++ cbrace :: render s) : Str) =
          (obrace :: (n ++ [cbrace])) ++ render s by simp]
        exact containsSub_append_right (ih h) _

theorem fillLoop_applyAll :
    ∀ (valores : List (Str × Str)) (segs : List Seg),
      (∀ kv ∈ valores, kv.1 ≠ [] ∧ braceFree kv.1 ∧ braceFree kv.2) →
      ParseStable segs → (∀ n ∈ holesOf segs, obrace ∉ n) →
      fillLoop valores (render segs) = render (applyAll valores segs)
  | [], _, _, _, _ => rfl
  | (k, v) :: rest, segs, hv, hst, hh => by
    obtain ⟨hkne, hkbf, hvbf⟩ := hv (k, v) (by simp)
    rw [show fillLoop ((k, v) :: rest) (render segs) =
      fillLoop rest
        (if containsSub (render segs) (obrace :: (k ++ [cbrace])) = true
         then replaceAll (obrace :: (k ++ [cbrace])) v (render segs)
         else render segs) from rfl]
    have hstep : (if containsSub (render segs) (obrace :: (k ++ [cbrace])) = true
         then replaceAll (obrace :: (k ++ [cbrace])) v (render segs)
         else render segs) = render (replHole k v segs) := by
      by_cases hcont : containsSub (render segs) (obrace :: (k ++ [cbrace])) = true
      · rw [if_pos hcont]
        exact replaceAll_render k v hkbf hkne hvbf segs hst hh
      · rw [if_neg hcont]
        have hk_not : k ∉ holesOf segs := fun hmem => hcont (containsSub_of_hole hmem)
        rw [replHole_of_not_mem hk_not]
    rw [hstep, applyAll_cons]
    exact fillLoop_applyAll rest (replHole k v segs)
      (fun kv hkv => hv kv (by simp [hkv]))
      (parseStable_replHole k v hvbf segs hst)
      (fun n hn => hh n (holesOf_replHole_sub hn))

/-! ## Assembled facts about `preencher_template` and `pyFormat` -/

theorem preencher_some_eq (t : TemplateDict) (tmpl : Str) (ht : t.template = some tmpl)
    (valores : List (Str × Str)) :
    preencher_template (some t) valores =
      (if (extrair_placeholders tmpl).filter (fun p => !(hasKey valores p)) ≠ [] then
        ("Valores faltantes: ").toList ++
          joinComma ((extrair_placeholders tmpl).filter (fun p => !(hasKey valores p)))
      else fillLoop valores tmpl) := by
  obtain ⟨nom, cat, topt⟩ := t
  change topt = some tmpl at ht
  subst ht
  rfl

theorem preencher_missing_aux (t : TemplateDict) (tmpl : Str) (ht : t.template = some tmpl)
    (valores : List (Str × Str))
    (hmiss : (extrair_placeholders tmpl).filter (fun p => !(hasKey valores p)) ≠ []) :
    preencher_template (some t) valores =
      ("Valores faltantes: ").toList ++
        joinComma ((extrair_placeholders tmpl).filter (fun p => !(hasKey valores p))) := by
  rw [preencher_some_eq t tmpl ht valores, if_pos hmiss]

theorem preencher_covered_fill (t : TemplateDict) (tmpl : Str) (ht : t.template = some tmpl)
    (valores : List (Str × Str))
    (hcov : ∀ n ∈ extrair_placeholders tmpl, hasKey valores n = true) :
    preencher_template (some t) valores = fillLoop valores tmpl := by
  rw [preencher_some_eq t tmpl ht valores]
  have hfil : (extrair_placeholders tmpl).filter (fun p => !(hasKey valores p)) = [] := by
    rw [List.filter_eq_nil_iff]
    intro a ha
    rw [hcov a ha]
    simp
  rw [if_neg (by rw [hfil]; simp)]

theorem fillLoop_eq_spec (tmpl : Str) (valores : List (Str × Str))
    (hnames : ∀ n ∈ extrair_placeholders tmpl, braceFree n)
    (hkv : ∀ kv ∈ valores, kv.1 ≠ [] ∧ braceFree kv.1 ∧ braceFree kv.2) :
    fillLoop valores tmpl = specSimultaneousFill valores tmpl := by
  conv_lhs => rw [← render_parse tmpl]
  rw [fillLoop_applyAll valores (parseSegs tmpl) hkv (parseStable_parse tmpl)
    (fun n hn => (hnames n hn).1)]
  rw [specSimultaneousFill, substSeg_eq_applyAll]

theorem holesOf_substSeg_nil {valores : List (Str × Str)} :
    ∀ {segs : List Seg}, (∀ n ∈ holesOf segs, hasKey valores n = true) →
      holesOf (substSeg valores segs) = [] := by
  intro segs
  induction segs with
  | nil => intro; rfl
  | cons x s ih =>
    intro hcov
    cases x with
    | lit c =>
      rw [show substSeg valores (.lit c :: s) = .lit c :: substSeg valores s from rfl]
      rw [show holesOf (.lit c :: substSeg valores s) = holesOf (substSeg valores s) from rfl]
      exact ih (fun n hn => hcov n (by simpa [holesOf] using hn))
    | hole n =>
      have hk := hcov n (by simp [holesOf])
      rw [hasKey] at hk
      obtain ⟨v0, hv0⟩ := Option.isSome_iff_exists.mp hk
      have h2 : substSeg valores (.hole n :: s) = v0.map .lit ++ substSeg valores s := by
        show (match lookupStr valores n with
          | some v => v.map Seg.lit
          | none => [Seg.hole n]) ++ substSeg valores s = _
        rw [hv0]
      rw [h2, holesOf_append, holesOf_map_lit]
      rw [List.nil_append]
      exact ih (fun m hm => hcov m (by simp [holesOf, hm]))

theorem spec_fill_no_tokens (tmpl : Str) (valores : List (Str × Str))
    (hkv2 : ∀ kv ∈ valores, braceFree kv.2)
    (hcov : ∀ n ∈ extrair_placeholders tmpl, hasKey valores n = true) :
    extrair_placeholders (specSimultaneousFill valores tmpl) = [] := by
  unfold specSimultaneousFill extrair_placeholders
  rw [substSeg_eq_applyAll]
  have hst := parseStable_applyAll valores (parseSegs tmpl) hkv2 (parseStable_parse tmpl)
  unfold ParseStable at hst
  rw [hst, ← substSeg_eq_applyAll]
  exact holesOf_substSeg_nil hcov

theorem formatSegs_none_of_missing {kwargs : List (Str × Str)} :
    ∀ {segs : List Seg} {n : Str}, n ∈ holesOf segs → lookupStr kwargs n = none →
      formatSegs kwargs segs = none := by
  intro segs
  induction segs with
  | nil => intro n h _; simp [holesOf] at h
  | cons x s ih =>
    intro n h hl
    cases x with
    | lit c =>
      rw [show formatSegs kwargs (.lit c :: s) =
        (formatSegs kwargs s).map (fun r => c :: r) from rfl]
      rw [ih (by simpa [holesOf] using h) hl]
      rfl
    | hole m =>
      simp only [holesOf, List.mem_cons] at h
      have hstep : formatSegs kwargs (.hole m :: s) =
          (match lookupStr kwargs m, formatSegs kwargs s with
           | some v, some r => some (v ++ r)
           | _, _ => none) := rfl
      rcases h with rfl | h
      · rcases hf : formatSegs kwargs s with _ | r <;> rw [hstep, hl, hf]
      · rcases hm : lookupStr kwargs m with _ | v <;> rw [hstep, hm, ih h hl]

/-! ## Auxiliary lookup facts -/

theorem lookupStr_eq_none_of_not_mem {l : List (Str × Str)} {key : Str}
    (h : key ∉ l.map Prod.fst) : lookupStr l key = none := by
  induction l with
  | nil => rfl
  | cons kv rest ih =>
    obtain ⟨k, v⟩ := kv
    simp only [List.map_cons, List.mem_cons] at h
    push_neg at h
    unfold lookupStr
    rw [if_neg (fun he => h.1 he.symm)]
    exact ih h.2

theorem gerar_basico_known {tipo tmpl2 : Str} (h : lookupStr templates tipo = some tmpl2)
    (kwargs : List (Str × Str)) :
    gerar_prompt_basico tipo kwargs =
      (match pyFormat kwargs tmpl2 with
       | some r => r
       | none =>
         ("Parâmetros faltantes: ").toList ++ joinComma (extrair_placeholders tmpl2)) := by
  unfold gerar_prompt_basico
  rw [h]

/-! ## Claim theorems -/

/-- Claim C9: `preencher_template` called with `None` (or a falsy dict), or with a
dict lacking the `'template'` key, returns the fixed sentinel text
`Template inválido.` for every value mapping, with no other behaviour. -/
theorem C9_invalid_template (valores : List (Str × Str)) (t : TemplateDict)
    (ht : t.template = none) :
    preencher_template none valores = ("Template inválido.").toList ∧
    preencher_template (some t) valores = ("Template inválido.").toList := by
  constructor
  · rfl
  · obtain ⟨nom, cat, topt⟩ := t
    change topt = none at ht
    subst ht
    rfl

/-- Claim C9 witness: the sentinel at a concrete mapping and a concrete
dict lacking the `'template'` key. -/
theorem C9_witness :
    preencher_template none [(("a").toList, ("b").toList)] = ("Template inválido.").toList ∧
    preencher_template (some ⟨("x").toList, ("y").toList, none⟩)
        [(("a").toList, ("b").toList)] = ("Template inválido.").toList :=
  C9_invalid_template [(("a").toList, ("b").toList)] ⟨("x").toList, ("y").toList, none⟩ rfl

/-- Claim C6: an unknown structure level yields the invalid-level message
listing exactly the three level names in catalog order, and an unknown type
yields the invalid-type message listing exactly the five type names in
catalog order; both functions are total (never raise). -/
theorem C6_unknown_level_and_type (nivel : Str)
    (hn : nivel ∉ estrutura_prompt.map Prod.fst)
    (i c o f r e : Str) (tipo : Str) (ht : tipo ∉ templates.map Prod.fst)
    (kwargs : List (Str × Str)) :
    gerar_prompt_estruturado nivel i c o f r e =
      ("Nível inválido. Níveis disponíveis: básico, detalhado, avançado").toList ∧
    gerar_prompt_basico tipo kwargs =
      ("Tipo inválido. Tipos disponíveis: criativo, técnico, análise, instrução, pesquisa").toList := by
  constructor
  · unfold gerar_prompt_estruturado
    rw [lookupStr_eq_none_of_not_mem hn]
    rfl
  · unfold gerar_prompt_basico
    rw [lookupStr_eq_none_of_not_mem ht]
    rfl

/-- Claim C6 witness: the unknown level `extremo` of the spec's example and
an unknown type `poesia`. -/
theorem C6_witness :
    gerar_prompt_estruturado (("extremo").toList) [] [] [] [] [] [] =
      ("Nível inválido. Níveis disponíveis: básico, detalhado, avançado").toList ∧
    gerar_prompt_basico (("poesia").toList) [] =
      ("Tipo inválido. Tipos disponíveis: criativo, técnico, análise, instrução, pesquisa").toList :=
  C6_unknown_level_and_type (("extremo").toList) (by decide) [] [] [] [] [] []
    (("poesia").toList) (by decide) []

/-- Claim C7: `obter_template` accepts a zero-based integer position or a
name matched case-insensitively (full `str.lower` folding); every
out-of-range index (negative included) returns `none`, an in-range index
returns the element at that zero-based position, a name matching no entry
returns `none`, and a name matching some entry under case folding returns an
entry with that folded name; no case raises. -/
theorem C7_obter_template (loaded : List TemplateDict) :
    (∀ idx : Int, (idx < 0 ∨ (loaded.length : Int) ≤ idx) →
      obter_template loaded (.inl idx) = none) ∧
    (∀ idx : Int, 0 ≤ idx → idx < (loaded.length : Int) →
      obter_template loaded (.inl idx) = loaded.get? idx.toNat) ∧
    (∀ nome : Str, (∀ t ∈ loaded, lowerStr t.nome ≠ lowerStr nome) →
      obter_template loaded (.inr nome) = none) ∧
    (∀ nome : Str, (∃ t ∈ loaded, lowerStr t.nome = lowerStr nome) →
      ∃ t, obter_template loaded (.inr nome) = some t ∧
        lowerStr t.nome = lowerStr nome) := by
  refine ⟨?_, ?_, ?_, ?_⟩
  · intro idx h
    show (if 0 ≤ idx ∧ idx < (loaded.length : Int) then loaded.get? idx.toNat else none) = none
    rw [if_neg (by rintro ⟨h1, h2⟩; rcases h with h | h <;> omega)]
  · intro idx h1 h2
    show (if 0 ≤ idx ∧ idx < (loaded.length : Int) then loaded.get? idx.toNat else none) = _
    rw [if_pos ⟨h1, h2⟩]
  · intro nome h
    show loaded.find? (fun t => lowerStr t.nome == lowerStr nome) = none
    rw [List.find?_eq_none]
    intro t ht hb
    exact h t ht (by simpa using hb)
  · intro nome h
    have hsome : (loaded.find? (fun t => lowerStr t.nome == lowerStr nome)).isSome := by
      rw [List.find?_isSome]
      obtain ⟨t, ht, he⟩ := h
      exact ⟨t, ht, by simpa using he⟩
    obtain ⟨t, hfind⟩ := Option.isSome_iff_exists.mp hsome
    refine ⟨t, hfind, ?_⟩
    have := List.find?_some hfind
    simpa using this

/-- Claim C7 witness: a concrete two-entry catalog (entry names `Um` and
`Análise`) with a negative index, a too-large index, an unmatched name, an
in-range index, and the accent-folded name `ANÁLISE` matching the entry
`análise`-insensitively. -/
theorem C7_witness :
    obter_template
        [⟨("Um").toList, ("a").toList, none⟩, ⟨("Análise").toList, ("b").toList, none⟩]
      (.inl (-1)) = none ∧
    obter_template
        [⟨("Um").toList, ("a").toList, none⟩, ⟨("Análise").toList, ("b").toList, none⟩]
      (.inl 5) = none ∧
    obter_template
        [⟨("Um").toList, ("a").toList, none⟩, ⟨("Análise").toList, ("b").toList, none⟩]
      (.inr (("Nada").toList)) = none ∧
    obter_template
        [⟨("Um").toList, ("a").toList, none⟩, ⟨("Análise").toList, ("b").toList, none⟩]
      (.inl 1) = some ⟨("Análise").toList, ("b").toList, none⟩ ∧
    (∃ t, obter_template
        [⟨("Um").toList, ("a").toList, none⟩, ⟨("Análise").toList, ("b").toList, none⟩]
      (.inr (("ANÁLISE").toList)) = some t ∧
        lowerStr t.nome = lowerStr (("ANÁLISE").toList)) := by
  refine ⟨?_, ?_, ?_, ?_, ?_⟩
  · exact (C7_obter_template _).1 (-1) (by decide)
  · exact (C7_obter_template _).1 5 (by decide)
  · exact (C7_obter_template _).2.2.1 (("Nada").toList) (by decide)
  · exact ((C7_obter_template _).2.1 1 (by decide) (by decide)).trans (by decide)
  · exact (C7_obter_template _).2.2.2 (("ANÁLISE").toList)
      ⟨⟨("Análise").toList, ("b").toList, none⟩, by decide, by decide⟩

/-- Claim C8: category lookup is case-insensitive under the full `str.lower`
folding — two category strings with the same case folding give identical
result lists, and every entry whose tag folds to the query's folding is in
the result — and a category matching no entry's tag gives the empty list. -/
theorem C8_categoria (loaded : List TemplateDict) :
    (∀ c1 c2 : Str, lowerStr c1 = lowerStr c2 →
      obter_template_por_categoria loaded c1 = obter_template_por_categoria loaded c2) ∧
    (∀ c : Str, ∀ t ∈ loaded, lowerStr t.categoria = lowerStr c →
      t ∈ obter_template_por_categoria loaded c) ∧
    (∀ c : Str, (∀ t ∈ loaded, lowerStr t.categoria ≠ lowerStr c) →
      obter_template_por_categoria loaded c = []) := by
  refine ⟨?_, ?_, ?_⟩
  · intro c1 c2 h
    unfold obter_template_por_categoria
    simp only [h]
  · intro c t ht he
    unfold obter_template_por_categoria
    rw [List.mem_filter]
    exact ⟨ht, by simpa using he⟩
  · intro c h
    unfold obter_template_por_categoria
    rw [List.filter_eq_nil_iff]
    intro t ht hb
    exact h t ht (by simpa using hb)

/-- Claim C8 witness: `TÉCNICO` and `técnico` (differing only in letter
case, accents included) give the same result on a concrete catalog whose
tag is `Técnico`; the tagged entry is found under the query `TÉCNICO`; and
an unmatched category gives `[]`. -/
theorem C8_witness :
    obter_template_por_categoria
        [⟨("Um").toList, ("Técnico").toList, none⟩, ⟨("Dois").toList, ("Geral").toList, none⟩]
        (("TÉCNICO").toList) =
      obter_template_por_categoria
        [⟨("Um").toList, ("Técnico").toList, none⟩, ⟨("Dois").toList, ("Geral").toList, none⟩]
        (("técnico").toList) ∧
    (⟨("Um").toList, ("Técnico").toList, none⟩ : TemplateDict) ∈
      obter_template_por_categoria
        [⟨("Um").toList, ("Técnico").toList, none⟩, ⟨("Dois").toList, ("Geral").toList, none⟩]
        (("TÉCNICO").toList) ∧
    obter_template_por_categoria
        [⟨("Um").toList, ("Técnico").toList, none⟩, ⟨("Dois").toList, ("Geral").toList, none⟩]
        (("inexistente").toList) = [] := by
  refine ⟨?_, ?_, ?_⟩
  · exact (C8_categoria _).1 (("TÉCNICO").toList) (("técnico").toList) (by decide)
  · exact (C8_categoria _).2.1 (("TÉCNICO").toList)
      ⟨("Um").toList, ("Técnico").toList, none⟩ (by decide) (by decide)
  · exact (C8_categoria _).2.2 (("inexistente").toList) (by decide)

/-- Claim C4: `otimizar_prompt` routes on the whitespace word count with
inclusive-exclusive boundaries — 9 words go to the short branch
(`expandir_prompt`), 10 and 29 words to the medium branch
(`estruturar_prompt`), 30 words to the long branch (`refinar_prompt`). -/
theorem C4_word_count_boundaries (p : Str) :
    ((pySplit p).length = 9 → otimizar_prompt p = expandir_prompt p) ∧
    ((pySplit p).length = 10 → otimizar_prompt p = estruturar_prompt p) ∧
    ((pySplit p).length = 29 → otimizar_prompt p = estruturar_prompt p) ∧
    ((pySplit p).length = 30 → otimizar_prompt p = refinar_prompt p) := by
  refine ⟨?_, ?_, ?_, ?_⟩ <;> intro h <;> unfold otimizar_prompt <;> rw [h] <;> norm_num

/-- Claim C4 witness: concrete inputs of exactly 9, 10, 29 and 30 words hit
the stated branches. -/
theorem C4_witness :
    otimizar_prompt (("um dois três quatro cinco seis sete oito nove").toList) =
      expandir_prompt (("um dois três quatro cinco seis sete oito nove").toList) ∧
    otimizar_prompt (("um dois três quatro cinco seis sete oito nove dez").toList) =
      estruturar_prompt (("um dois três quatro cinco seis sete oito nove dez").toList) ∧
    otimizar_prompt (("w w w w w w w w w w w w w w w w w w w w w w w w w w w w w").toList) = estruturar_prompt (("w w w w w w w w w w w w w w w w w w w w w w w w w w w w w").toList) ∧
    otimizar_prompt (("w w w w w w w w w w w w w w w w w w w w w w w w w w w w w w").toList) = refinar_prompt (("w w w w w w w w w w w w w w w w w w w w w w w w w w w w w w").toList) := by
  refine ⟨?_, ?_, ?_, ?_⟩
  · exact (C4_word_count_boundaries _).1 (by decide)
  · exact (C4_word_count_boundaries _).2.1 (by decide)
  · exact (C4_word_count_boundaries _).2.2.1 (by decide)
  · exact (C4_word_count_boundaries _).2.2.2 (by decide)

set_option maxRecDepth 8000 in
/-- Claim C10: every branch of `otimizar_prompt` embeds the original input
verbatim as a contiguous substring: the short branch output begins with it,
the medium branch embeds it right after the `# INSTRUÇÃO` heading, and the
long branch ends with it right after the `# PROMPT ORIGINAL` heading. -/
theorem C10_contains_original (p : Str) :
    containsSub (otimizar_prompt p) p = true ∧
    ((pySplit p).length < 10 → otimizar_prompt p =
      p ++ ("\n\nPor favor, forneça uma resposta detalhada e estruturada. Inclua exemplos relevantes e passos concretos quando aplicável. Considere diferentes perspectivas e contextos.").toList) ∧
    (10 ≤ (pySplit p).length → (pySplit p).length < 30 → otimizar_prompt p =
      ("# INSTRUÇÃO\n").toList ++
        (p ++ ("\n\n# FORMATO DESEJADO\n- Comece com uma introdução concisa\n- Organize a informação em seções claras\n- Utilize bullets para pontos importantes\n- Conclua com um resumo aplicável\n- Use linguagem precisa e exemplos quando necessário").toList)) ∧
    (30 ≤ (pySplit p).length →
      ∃ pre : Str, otimizar_prompt p = pre ++ (("# PROMPT ORIGINAL\n").toList ++ p)) := by
  refine ⟨?_, ?_, ?_, ?_⟩
  · unfold otimizar_prompt
    by_cases h1 : (pySplit p).length < 10
    · rw [if_pos h1]
      unfold expandir_prompt
      exact containsSub_of_startsWith (startsWith_append p _)
    · rw [if_neg h1]
      by_cases h2 : (pySplit p).length < 30
      · rw [if_pos h2]
        unfold estruturar_prompt
        rw [List.append_assoc]
        exact containsSub_middle _ p _
      · rw [if_neg h2]
        unfold refinar_prompt
        exact containsSub_append_right (containsSub_self p) _
  · intro h1
    unfold otimizar_prompt
    rw [if_pos h1]
    rfl
  · intro h1 h2
    unfold otimizar_prompt
    rw [if_neg (by omega), if_pos h2]
    unfold estruturar_prompt
    rw [List.append_assoc]
  · intro h
    refine ⟨("# OBJETIVO PRINCIPAL\n").toList ++
      (match pySplitNl p with | [] => p | l :: _ => l) ++
      ("\n\n# CONTEXTO\nEntendendo o contexto completo fornecido\n\n# PARÂMETROS DE QUALIDADE\n1. Precisão: Forneça informações corretas e verificáveis\n2. Relevância: Mantenha o foco no objetivo principal\n3. Estrutura: Organize a resposta de forma lógica\n4. Profundidade: Equilibre detalhes suficientes sem prolixidade\n5. Clareza: Use linguagem simples e direta\n\n").toList, ?_⟩
    unfold otimizar_prompt
    rw [if_neg (by omega), if_neg (by omega)]
    unfold refinar_prompt
    have hsplit : ("\n\n# CONTEXTO\nEntendendo o contexto completo fornecido\n\n# PARÂMETROS DE QUALIDADE\n1. Precisão: Forneça informações corretas e verificáveis\n2. Relevância: Mantenha o foco no objetivo principal\n3. Estrutura: Organize a resposta de forma lógica\n4. Profundidade: Equilibre detalhes suficientes sem prolixidade\n5. Clareza: Use linguagem simples e direta\n\n# PROMPT ORIGINAL\n").toList =
        ("\n\n# CONTEXTO\nEntendendo o contexto completo fornecido\n\n# PARÂMETROS DE QUALIDADE\n1. Precisão: Forneça informações corretas e verificáveis\n2. Relevância: Mantenha o foco no objetivo principal\n3. Estrutura: Organize a resposta de forma lógica\n4. Profundidade: Equilibre detalhes suficientes sem prolixidade\n5. Clareza: Use linguagem simples e direta\n\n").toList ++
        ("# PROMPT ORIGINAL\n").toList := by decide
    rw [hsplit]
    simp [List.append_assoc]

/-- Claim C10 witness: a 3-word, a 12-word and a 31-word concrete input hit
the three branches with the input embedded verbatim as stated. -/
theorem C10_witness :
    otimizar_prompt (("Me dê ideias.").toList) =
      ("Me dê ideias.").toList ++ ("\n\nPor favor, forneça uma resposta detalhada e estruturada. Inclua exemplos relevantes e passos concretos quando aplicável. Considere diferentes perspectivas e contextos.").toList ∧
    otimizar_prompt (("este é um texto de tamanho médio com doze palavras exatamente agora").toList) =
      ("# INSTRUÇÃO\n").toList ++
        ((("este é um texto de tamanho médio com doze palavras exatamente agora").toList) ++ ("\n\n# FORMATO DESEJADO\n- Comece com uma introdução concisa\n- Organize a informação em seções claras\n- Utilize bullets para pontos importantes\n- Conclua com um resumo aplicável\n- Use linguagem precisa e exemplos quando necessário").toList) ∧
    (∃ pre : Str, otimizar_prompt (("primeira linha\nv v v v v v v v v v v v v v v v v v v v v v v v v v v v v").toList) =
      pre ++ (("# PROMPT ORIGINAL\n").toList ++ ("primeira linha\nv v v v v v v v v v v v v v v v v v v v v v v v v v v v v").toList)) := by
  refine ⟨?_, ?_, ?_⟩
  · exact (C10_contains_original _).2.1 (by decide)
  · exact (C10_contains_original _).2.2.1 (by decide) (by decide)
  · exact (C10_contains_original _).2.2.2 (by decide)

/-- Claim C1 counterexample: a missing placeholder occurring twice in the
template is reported twice (`Valores faltantes: a, a` — not deduplicated),
and `gerar_prompt_básico` for the known type `criativo` with `persona`
supplied reports all five placeholders, not just the four missing ones. -/
theorem C1_cex :
    preencher_template (some ⟨[], [], some (("\x7ba\x7d \x7ba\x7d").toList)⟩) [] =
      ("Valores faltantes: a, a").toList ∧
    gerar_prompt_basico (("criativo").toList) [(("persona").toList, ("X").toList)] =
      ("Parâmetros faltantes: persona, contexto, output_type, tema, estilo").toList :=
  ⟨by decide, by decide⟩

/-- Claim C1 (amended): when at least one placeholder of the template has no
entry in the mapping, `preencher_template` returns `Valores faltantes: `
followed by the missing names in template occurrence order with multiplicity
(a repeated missing placeholder is listed once per occurrence), and for a
known type with a missing format parameter `gerar_prompt_básico` returns
`Parâmetros faltantes: ` followed by all of that template's placeholder
names (not only the missing ones); neither function raises and no partially
substituted text is returned. -/
theorem C1_missing_fields (t : TemplateDict) (tmpl : Str) (ht : t.template = some tmpl)
    (valores : List (Str × Str))
    (hmiss : ∃ p ∈ extrair_placeholders tmpl, hasKey valores p = false)
    (tipo tmpl2 : Str) (kwargs : List (Str × Str))
    (htipo : lookupStr templates tipo = some tmpl2)
    (hmiss2 : ∃ p ∈ extrair_placeholders tmpl2, lookupStr kwargs p = none) :
    preencher_template (some t) valores =
      ("Valores faltantes: ").toList ++
        joinComma ((extrair_placeholders tmpl).filter (fun p => !(hasKey valores p))) ∧
    gerar_prompt_basico tipo kwargs =
      ("Parâmetros faltantes: ").toList ++ joinComma (extrair_placeholders tmpl2) := by
  constructor
  · apply preencher_missing_aux t tmpl ht valores
    intro hnil
    rw [List.filter_eq_nil_iff] at hnil
    obtain ⟨p, hp, hk⟩ := hmiss
    exact hnil p hp (by rw [hk]; rfl)
  · rw [gerar_basico_known htipo kwargs]
    obtain ⟨p, hp, hl⟩ := hmiss2
    rw [show pyFormat kwargs tmpl2 = none from formatSegs_none_of_missing hp hl]

/-- Claim C1 witness: one concrete missing-value fill and one concrete
missing-parameter basic prompt. -/
theorem C1_witness :
    preencher_template
        (some ⟨[], [], some (("Explique \x7bconceito\x7d e \x7bnível\x7d").toList)⟩)
        [(("conceito").toList, ("x").toList)] = ("Valores faltantes: nível").toList ∧
    gerar_prompt_basico (("técnico").toList) [(("área").toList, ("IA").toList)] =
      ("Parâmetros faltantes: área, contexto, conceito, nível_detalhe").toList := by
  have h := C1_missing_fields
    ⟨[], [], some (("Explique \x7bconceito\x7d e \x7bnível\x7d").toList)⟩
    (("Explique \x7bconceito\x7d e \x7bnível\x7d").toList) rfl
    [(("conceito").toList, ("x").toList)] (by decide)
    (("técnico").toList)
    (("Você é um especialista em \x7bárea\x7d. \x7bcontexto\x7d Explique \x7bconceito\x7d com \x7bnível_detalhe\x7d.").toList)
    [(("área").toList, ("IA").toList)] (by decide) (by decide)
  exact ⟨h.1.trans (by decide), h.2.trans (by decide)⟩

/-- Claim C2 counterexample: with template `\x7ba\x7d \x7bb\x7d` and the mapping
`a ↦ \x7bb\x7d, b ↦ X` (covering both placeholders, insertion order `a` then
`b`), the `\x7bb\x7d` token inside the substituted value of `a` IS replaced by
the value bound to `b`: the result is `X X`, not the `\x7bb\x7d X` the claim
demands. -/
theorem C2_cex :
    preencher_template (some ⟨[], [], some (("\x7ba\x7d \x7bb\x7d").toList)⟩)
        [(("a").toList, ("\x7bb\x7d").toList), (("b").toList, ("X").toList)] =
      ("X X").toList ∧
    preencher_template (some ⟨[], [], some (("\x7ba\x7d \x7bb\x7d").toList)⟩)
        [(("a").toList, ("\x7bb\x7d").toList), (("b").toList, ("X").toList)] ≠
      ("\x7bb\x7d X").toList :=
  ⟨by decide, by decide⟩

/-- Claim C2 (amended): substitution is a sequence of literal full-string
replacements in mapping insertion order, so a `\x7bother\x7d` token inside an
already-substituted value is replaced when `other` occurs later in the
iteration order; when every placeholder name, key and value is free of brace
characters and keys are nonempty, no re-scan effect is observable: the loop
coincides with one simultaneous literal substitution of the template. -/
theorem C2_literal_nonrecursive (tmpl : Str) (valores : List (Str × Str))
    (hnames : ∀ n ∈ extrair_placeholders tmpl, braceFree n)
    (hkv : ∀ kv ∈ valores, kv.1 ≠ [] ∧ braceFree kv.1 ∧ braceFree kv.2) :
    fillLoop valores tmpl = specSimultaneousFill valores tmpl :=
  fillLoop_eq_spec tmpl valores hnames hkv

/-- Claim C2 witness: the spec's end-to-end example evaluated through the
substitution loop agrees with the simultaneous substitution. -/
theorem C2_witness :
    fillLoop
        [(("conceito").toList, ("recursão").toList),
         (("nível").toList, ("exemplos simples").toList)]
        (("Explique \x7bconceito\x7d com \x7bnível\x7d").toList) =
      specSimultaneousFill
        [(("conceito").toList, ("recursão").toList),
         (("nível").toList, ("exemplos simples").toList)]
        (("Explique \x7bconceito\x7d com \x7bnível\x7d").toList) :=
  C2_literal_nonrecursive _ _ (by decide) (by decide)

/-- Claim C3 counterexample: the mapping `a ↦ \x7bx\x7d` covers every placeholder
of the template `\x7ba\x7d`, yet the result `\x7bx\x7d` still contains a placeholder
token. -/
theorem C3_cex :
    preencher_template (some ⟨[], [], some (("\x7ba\x7d").toList)⟩)
        [(("a").toList, ("\x7bx\x7d").toList)] = ("\x7bx\x7d").toList ∧
    extrair_placeholders
      (preencher_template (some ⟨[], [], some (("\x7ba\x7d").toList)⟩)
        [(("a").toList, ("\x7bx\x7d").toList)]) ≠ [] :=
  ⟨by decide, by decide⟩

/-- Claim C3 (amended): when the mapping provides a value for every
placeholder of the template and, additionally, every placeholder name, key
and value is free of brace characters (keys nonempty), the fill result
equals the format string with each placeholder simultaneously textually
replaced by its value, and contains no remaining placeholder token. -/
theorem C3_no_remaining_tokens (t : TemplateDict) (tmpl : Str)
    (ht : t.template = some tmpl) (valores : List (Str × Str))
    (hnames : ∀ n ∈ extrair_placeholders tmpl, braceFree n)
    (hkv : ∀ kv ∈ valores, kv.1 ≠ [] ∧ braceFree kv.1 ∧ braceFree kv.2)
    (hcov : ∀ n ∈ extrair_placeholders tmpl, hasKey valores n = true) :
    preencher_template (some t) valores = specSimultaneousFill valores tmpl ∧
    extrair_placeholders (preencher_template (some t) valores) = [] := by
  have h1 := preencher_covered_fill t tmpl ht valores hcov
  have h2 := fillLoop_eq_spec tmpl valores hnames hkv
  refine ⟨h1.trans h2, ?_⟩
  rw [h1, h2]
  exact spec_fill_no_tokens tmpl valores (fun kv hkv2 => (hkv kv hkv2).2.2) hcov

/-- Claim C3 witness: a concrete covered fill equals the simultaneous
substitution and leaves no token. -/
theorem C3_witness :
    preencher_template
        (some ⟨[], [], some (("Como \x7bpersona\x7d, analise \x7bobjeto\x7d.").toList)⟩)
        [(("persona").toList, ("um professor").toList),
         (("objeto").toList, ("o código").toList)] =
      specSimultaneousFill
        [(("persona").toList, ("um professor").toList),
         (("objeto").toList, ("o código").toList)]
        (("Como \x7bpersona\x7d, analise \x7bobjeto\x7d.").toList) ∧
    extrair_placeholders
      (preencher_template
        (some ⟨[], [], some (("Como \x7bpersona\x7d, analise \x7bobjeto\x7d.").toList)⟩)
        [(("persona").toList, ("um professor").toList),
         (("objeto").toList, ("o código").toList)]) = [] :=
  C3_no_remaining_tokens
    ⟨[], [], some (("Como \x7bpersona\x7d, analise \x7bobjeto\x7d.").toList)⟩ _ rfl _
    (by decide) (by decide) (by decide)

set_option maxRecDepth 8000 in
/-- Claim C5: at a recognized level, empty `contexto`, `objetivo` and
`formato` are replaced by their fixed canned defaults for the two levels
other than `básico` (supplying the canned text explicitly gives the same
output as supplying the empty string); empty `restrições` and `exemplos` are
defaulted at level `avançado`; and at level `básico` the output is exactly
the instruction field, with no defaulting of any field (the output ignores
all other fields, and `detalhado` output is independent of `restrições` and
`exemplos`). -/
theorem C5_structured_defaults :
    (∀ i c o f r e : Str,
      gerar_prompt_estruturado (("básico").toList) i c o f r e = i) ∧
    (∀ lvl : Str, lvl = ("detalhado").toList ∨ lvl = ("avançado").toList →
      (∀ i o f r e : Str,
        gerar_prompt_estruturado lvl i [] o f r e =
        gerar_prompt_estruturado lvl i
          (("Considere o contexto atual e as melhores práticas.").toList) o f r e) ∧
      (∀ i c f r e : Str,
        gerar_prompt_estruturado lvl i c [] f r e =
        gerar_prompt_estruturado lvl i c
          (("Fornecer informação clara, precisa e útil.").toList) f r e) ∧
      (∀ i c o r e : Str,
        gerar_prompt_estruturado lvl i c o [] r e =
        gerar_prompt_estruturado lvl i c o
          (("Texto estruturado com parágrafos lógicos e pontos principais destacados.").toList)
          r e)) ∧
    (∀ i c o f e : Str,
      gerar_prompt_estruturado (("avançado").toList) i c o f [] e =
      gerar_prompt_estruturado (("avançado").toList) i c o f
        (("Mantenha a resposta concisa e focada no objetivo.").toList) e) ∧
    (∀ i c o f r : Str,
      gerar_prompt_estruturado (("avançado").toList) i c o f r [] =
      gerar_prompt_estruturado (("avançado").toList) i c o f r
        (("Exemplo 1: [Breve exemplo relacionado]").toList)) ∧
    (∀ i c o f r e r2 e2 : Str,
      gerar_prompt_estruturado (("detalhado").toList) i c o f r e =
      gerar_prompt_estruturado (("detalhado").toList) i c o f r2 e2) := by
  refine ⟨fun i _ _ _ _ _ => List.append_nil i, ?_, fun _ _ _ _ _ => rfl,
    fun _ _ _ _ _ => rfl, fun _ _ _ _ _ _ _ _ => rfl⟩
  rintro lvl (rfl | rfl) <;>
    exact ⟨fun _ _ _ _ _ => rfl, fun _ _ _ _ _ => rfl, fun _ _ _ _ _ => rfl⟩

/-- Claim C5 witness: a concrete empty `contexto` at level `detalhado`
equals the canned default, and a concrete `básico` call passes through only
the instruction. -/
theorem C5_witness :
    gerar_prompt_estruturado (("detalhado").toList) (("Crie um plano").toList) []
        (("Obj").toList) (("Fmt").toList) [] [] =
      gerar_prompt_estruturado (("detalhado").toList) (("Crie um plano").toList)
        (("Considere o contexto atual e as melhores práticas.").toList)
        (("Obj").toList) (("Fmt").toList) [] [] ∧
    gerar_prompt_estruturado (("básico").toList) (("Faça X").toList) (("c").toList)
        (("o").toList) (("f").toList) (("r").toList) (("e").toList) = ("Faça X").toList := by
  constructor
  · exact (C5_structured_defaults.2.1 (("detalhado").toList) (Or.inl rfl)).1
      (("Crie um plano").toList) (("Obj").toList) (("Fmt").toList) [] []
  · exact C5_structured_defaults.1 (("Faça X").toList) (("c").toList) (("o").toList)
      (("f").toList) (("r").toList) (("e").toList)
